import Mathlib

/-!
Verification of the Noise secure-channel upgrader core
(`src/protocols/noise/src/{lib.rs, io.rs, rt1.rs}`) against its
natural-language specification.

Shallow embedding conventions:
* bytes are `Nat` (the claims never depend on the 0..255 range);
* Rust `Vec<u8>` and slices are `List Nat`;
* the external Noise session primitives (`send_message`, `recv_message`)
  are in-place, length-preserving transforms; they are modelled as oracle
  parameters of type `List Nat → Except Unit (List Nat)` (`.error` =
  cryptographic failure propagated by `?`);
* Rust slice-indexing and `split_at` panics are modelled by explicit
  bound checks returning a dedicated "panic" constructor;
* the non-blocking transport is modelled by a script of I/O events, one
  event per `io.read` / `io.write` call.
-/

/-- writes `xs` into `l` at position `off` (Rust `l[off..off+xs.len()].copy_from_slice(xs)`). -/
def splice (l : List Nat) (off : Nat) (xs : List Nat) : List Nat :=
  l.take off ++ xs ++ l.drop (off + xs.length)

/-- big-endian decoding of a 2-byte buffer (Rust `u16::from_be_bytes`). -/
def be16 (l : List Nat) : Nat :=
  l.getD 0 0 * 256 + l.getD 1 0

/-- big-endian encoding of a length as 2 bytes (Rust `u16::to_be_bytes(n as u16)`). -/
def be16bytes (n : Nat) : List Nat :=
  [n / 256 % 256, n % 256]

/-! ## Session adapter (`lib.rs`, `NoiseSession::read_message` / `write_message`) -/

/-- one of the three Noise handshake patterns of the tagged union `NoiseSession`. -/
inductive Pattern
  | ik
  | ix
  | xx
deriving DecidableEq, Repr

/-- result of `NoiseSession::read_message`: success, propagated crypto error,
or a Rust panic caused by an out-of-bounds slice / `split_at`. -/
inductive RMsg
  | okM (pt : List Nat)
  | cerr
  | oob
deriving DecidableEq, Repr

/-- the shape `let (plaintext, _) = &buf[k..].split_at(buf.len()-16)` used by the
tag-stripping arms of `read_message` (with `k = 0` for the transport arms, which
split the whole buffer).  `buf[k..]` panics when `k > buf.len()`; `buf.len()-16`
underflows when `buf.len() < 16`; `split_at(mid)` panics when `mid` exceeds the
length `buf.len() - k` of the sliced-from-`k` buffer. -/
def sliceSplitTag (recv : List Nat → Except Unit (List Nat)) (k : Nat)
    (buf : List Nat) : RMsg :=
  match recv buf with
  | .error _ => .cerr
  | .ok b =>
      if k ≤ b.length ∧ 16 ≤ b.length ∧ b.length - 16 ≤ b.length - k then
        .okM ((b.drop k).take (b.length - 16))
      else .oob

/-- the shape `Vec::from(&buf[k..])` used by the IX/XX message-0 receive arms
(no tag strip). -/
def sliceFromOnly (recv : List Nat → Except Unit (List Nat)) (k : Nat)
    (buf : List Nat) : RMsg :=
  match recv buf with
  | .error _ => .cerr
  | .ok b => if k ≤ b.length then .okM (b.drop k) else .oob

/-- `NoiseSession::read_message` (`lib.rs` lines 72–150), arm by arm.
`mc` is `get_message_count()` at call time, `tr` is `is_transport()`,
`recv` is the in-place session receive primitive. -/
def readMessage (recv : List Nat → Except Unit (List Nat)) (p : Pattern)
    (mc : Nat) (tr : Bool) (buf : List Nat) : RMsg :=
  match p with
  | .ik =>
      if mc > 1 ∧ tr then sliceSplitTag recv 0 buf
      else if mc == 0 then sliceSplitTag recv 80 buf
      else sliceSplitTag recv 32 buf
  | .ix =>
      if mc > 1 ∧ tr then sliceSplitTag recv 0 buf
      else if mc == 0 then sliceFromOnly recv 64 buf
      else sliceSplitTag recv 80 buf
  | .xx =>
      if mc > 2 ∧ tr then sliceSplitTag recv 0 buf
      else if mc == 0 then sliceFromOnly recv 32 buf
      else if mc == 1 then sliceSplitTag recv 80 buf
      else sliceSplitTag recv 48 buf

/-- `NoiseSession::write_message` (`lib.rs` lines 151–255), arm by arm:
the zero padding prepended/appended around the plaintext before the in-place
session send primitive `send` runs over the whole buffer. -/
def writeMessage (send : List Nat → Except Unit (List Nat)) (p : Pattern)
    (mc : Nat) (tr : Bool) (pt : List Nat) : Except Unit (List Nat) :=
  match p with
  | .ik =>
      if mc > 1 ∧ tr then send (pt ++ List.replicate 16 0)
      else if mc == 0 then send (List.replicate 80 0 ++ pt ++ List.replicate 16 0)
      else send (List.replicate 32 0 ++ pt ++ List.replicate 16 0)
  | .ix =>
      if mc > 1 ∧ tr then send (pt ++ List.replicate 16 0)
      else if mc == 0 then send (List.replicate 64 0 ++ pt)
      else send (List.replicate 80 0 ++ pt ++ List.replicate 16 0)
  | .xx =>
      if mc > 2 ∧ tr then send (pt ++ List.replicate 16 0)
      else if mc == 0 then send (List.replicate 32 0 ++ pt)
      else if mc == 1 then send (List.replicate 80 0 ++ pt ++ List.replicate 16 0)
      else send (List.replicate 48 0 ++ pt ++ List.replicate 16 0)

/-- identity session primitive: a length-preserving in-place transform that
always succeeds (stands for the crypto succeeding). -/
def pureSess : List Nat → Except Unit (List Nat) := fun b => .ok b

/-- per-message handshake prefix length from the spec table in §4.1, keyed the
way the source branches on `(message_count, is_transport)`. -/
def specPrefixLen (p : Pattern) (mc : Nat) (tr : Bool) : Nat :=
  match p with
  | .ik => if mc > 1 ∧ tr then 0 else if mc == 0 then 80 else 32
  | .ix => if mc > 1 ∧ tr then 0 else if mc == 0 then 64 else 80
  | .xx => if mc > 2 ∧ tr then 0 else if mc == 0 then 32
           else if mc == 1 then 80 else 48

/-- tag bytes actually appended by `write_message`: 16 in every arm except the
first messages of IX and XX, which append none. -/
def specTagLen (p : Pattern) (mc : Nat) (tr : Bool) : Nat :=
  match p with
  | .ik => 16
  | .ix => if mc > 1 ∧ tr then 16 else if mc == 0 then 0 else 16
  | .xx => if mc > 2 ∧ tr then 16 else if mc == 0 then 0 else 16

/-! ## Upgrade surface (`lib.rs`, prologue strings of the six upgrade factories) -/

/-- role of the upgrade: `upgrade_outbound` (initiator) or `upgrade_inbound`
(responder). -/
inductive Role
  | initiator
  | responder
deriving DecidableEq, Repr

/-- prologue byte string passed to `init_session` by each of the six upgrade
factories, transcribed literally from the source (`lib.rs` lines 322, 342,
382, 402, 446, 467). -/
def upgradePrologue : Pattern → Role → String
  | .ix, .responder => "Noise_IX_25519_ChaChaPoly_Blake2s"
  | .ix, .initiator => "Noise_IX_25519_ChaChaPoly_Blake2s"
  | .xx, .responder => "Noise_IX_25519_ChaChaPoly_Blake2s"
  | .xx, .initiator => "Noise_XX_25519_ChaChaPoly_Blake2s"
  | .ik, .responder => "Noise_IK_25519_ChaChaPoly_Blake2s"
  | .ik, .initiator => "Noise_IK_25519_ChaChaPoly_Blake2s"

/-- upper-case pattern name. -/
def patternName : Pattern → String
  | .ik => "IK"
  | .ix => "IX"
  | .xx => "XX"

/-- the prologue the spec (§4.4) requires for pattern `p`:
`"Noise_<PATTERN>_25519_ChaChaPoly_Blake2s"`. -/
def specPrologue (p : Pattern) : String :=
  "Noise_" ++ patternName p ++ "_25519_ChaChaPoly_Blake2s"

/-! ## Claims about the session adapter and the upgrade surface -/

/-- C1: the claim says `read_message` returns `frame[prefix_len .. frame.len()-16]`
and that the returned slice is always in bounds.  In the source, every
tag-stripping handshake arm computes
`frame[prefix..].split_at(frame.len()-16)`, which asks the length-`len-prefix`
slice for `len-16 > len-prefix` elements and panics; the comments in those arms
("output between index 80 and index transport_buffer.len()-16") state the
claimed behaviour, so the code contradicts its own documentation.  Evaluated
at an IK message-0 frame of 96 bytes (80-byte prefix, empty payload, 16-byte
tag) the code panics where the claim requires the empty slice; moreover the
XX message-0 arm returns `frame[32..]` without stripping the 16-byte tag. -/
theorem read_message_slices_out_of_bounds :
    readMessage pureSess .ik 0 false (List.replicate 96 0) = .oob ∧
    readMessage pureSess .xx 0 false (List.replicate 48 0)
      = .okM (List.replicate 16 0) := by
  constructor
  · simp [readMessage, sliceSplitTag, pureSess]
  · simp [readMessage, sliceFromOnly, pureSess, List.drop_replicate]

/-- C3: the claim says every upgrade initializes its session with the prologue
`"Noise_<P>_25519_ChaChaPoly_Blake2s"` of its own pattern, in particular that
the XX inbound upgrade uses `"Noise_XX_25519_ChaChaPoly_Blake2s"`.
`XX::upgrade_inbound` (`lib.rs` line 382) instead passes the IX prologue —
a slip, since `XX::upgrade_outbound` (line 402) passes the XX prologue. -/
theorem xx_upgrade_inbound_wrong_prologue :
    upgradePrologue .xx .responder = "Noise_IX_25519_ChaChaPoly_Blake2s" ∧
    specPrologue .xx = "Noise_XX_25519_ChaChaPoly_Blake2s" ∧
    upgradePrologue .xx .responder ≠ specPrologue .xx ∧
    upgradePrologue .xx .initiator = specPrologue .xx ∧
    upgradePrologue .ik .initiator = specPrologue .ik ∧
    upgradePrologue .ik .responder = specPrologue .ik ∧
    upgradePrologue .ix .initiator = specPrologue .ix ∧
    upgradePrologue .ix .responder = specPrologue .ix := by
  refine ⟨rfl, rfl, ?_, rfl, rfl, rfl, rfl, rfl⟩
  decide

/-- C5 (counterexample): the claim says `write_message` appends a 16-byte tag
suffix uniformly, including the first handshake messages, so every frame has
length `prefix + |plaintext| + 16`.  The IX message-0 arm appends no tag: an
empty plaintext produces a 64-byte frame, not an 80-byte one.  (The XX
message-0 arm likewise appends none.) -/
theorem write_message_ix_msg0_has_no_tag :
    writeMessage pureSess .ix 0 false [] = .ok (List.replicate 64 0) ∧
    (List.replicate 64 (0 : Nat)).length ≠ 64 + 0 + 16 := by
  constructor
  · simp [writeMessage, pureSess]
  · simp

/-- C5 (amended): for a length-preserving session send primitive,
`write_message` produces a frame of length
`prefix(pattern, mc, transport) + |plaintext| + tag(pattern, mc, transport)`,
where the prefix lengths follow the §4.1 table (IK: 80/32, IX: 64/80,
XX: 32/80/48, transport: 0) and the tag is 16 bytes in every arm except
IX message 0 and XX message 0, which append none. -/
theorem write_message_frame_length (send : List Nat → Except Unit (List Nat))
    (hlen : ∀ b r, send b = .ok r → r.length = b.length)
    (p : Pattern) (mc : Nat) (tr : Bool) (pt out : List Nat)
    (h : writeMessage send p mc tr pt = .ok out) :
    out.length = specPrefixLen p mc tr + pt.length + specTagLen p mc tr := by
  cases p <;>
    simp only [writeMessage, specPrefixLen, specTagLen] at h ⊢ <;>
    split_ifs at h ⊢ <;>
    simp_all [hlen _ _ h] <;>
    omega

/-- witness for `write_message_frame_length`: the XX message-1 arm on a 3-byte
plaintext yields an 80 + 3 + 16 = 99-byte frame. -/
theorem write_message_frame_length_witness :
    (writeMessage pureSess .xx 1 false [7, 8, 9]).isOk = true ∧
    ∀ out, writeMessage pureSess .xx 1 false [7, 8, 9] = .ok out →
      out.length = specPrefixLen .xx 1 false + 3 + specTagLen .xx 1 false := by
  refine ⟨by simp [writeMessage, pureSess, Except.isOk, Except.toBool], ?_⟩
  intro out h
  exact write_message_frame_length pureSess
    (by intro b r hr; cases hr; rfl) .xx 1 false [7, 8, 9] out h

/-! ## Framed codec, read machine (`io.rs`, `NoiseOutput::read` and `read_frame_len`)

The non-blocking transport is a script of events, one consumed per
`io.read` call: `.bytes bs` means the call returned `Ok` with the bytes
`bs` (truncated to the requested slice length; `.bytes []` is a 0-byte
read, i.e. EOF), `.wb` means it returned the `WouldBlock` error, the only
error kind the claims are about.  An exhausted script yields the `.stuck`
outcome (the Rust call would simply block forever). -/

/-- transport read event. -/
inductive REv
  | bytes (bs : List Nat)
  | wb
deriving DecidableEq, Repr

/-- `ReadState` from `io.rs`. -/
inductive RState
  | init
  | readLen (buf : List Nat) (off : Nat)
  | readData (len off : Nat)
  | copyData (len off : Nat)
  | eofClean
  | eofUnexp
  | decErr
deriving DecidableEq, Repr

/-- result of one `NoiseOutput::read` call: `Ok(n)`, a propagated
`WouldBlock`, `UnexpectedEof`, `InvalidData`, a Rust out-of-bounds panic,
or an exhausted event script. -/
inductive RdRes
  | okN (n : Nat)
  | errWb
  | errUnexpEof
  | errInvData
  | oobR
  | stuck
deriving DecidableEq, Repr

/-- full outcome of one `NoiseOutput::read` call: result, final `read_state`,
final `buffer.read` and `buffer.read_crypto`, the bytes copied into the
caller's buffer, and the unconsumed transport events. -/
structure RdOut where
  res : RdRes
  st : RState
  bufR : List Nat
  bufC : List Nat
  copied : List Nat
  rest : List REv
deriving DecidableEq, Repr

/-- the `ReadState::CopyData` arm body (`io.rs` lines 217–229): copy
`min(len - off, buf.len())` bytes of `buffer.read_crypto[off..]` into the
caller's buffer, advance `off`, return to `ReadLen` once `off == len`, and
return the copied count.  The source copy panics if `off + n` exceeds
`read_crypto.len()`. -/
def copyStep (len off cb : Nat) (bufR bufC : List Nat) (script : List REv) : RdOut :=
  let n := min (len - off) cb
  if off + n ≤ bufC.length then
    ⟨.okN n, if len = off + n then .readLen [0, 0] 0 else .copyData len (off + n),
     bufR, bufC, (bufC.drop off).take n, script⟩
  else ⟨.oobR, .copyData len off, bufR, bufC, [], script⟩

/-- the decryption step at the end of `ReadData` (`io.rs` lines 204–214):
`if let Ok(plaintext) = self.session.read_message(...)` places the plaintext
in `buffer.read_crypto`, moves to `CopyData{plaintext.len(), 0}` and the loop
immediately runs the copy; on failure the state becomes `DecErr` and the call
returns `InvalidData`. -/
def decStep (res : Except Unit (List Nat)) (cb : Nat) (bufR' bufC : List Nat)
    (rest : List REv) : RdOut :=
  match res with
  | .ok pt => copyStep pt.length 0 cb bufR' pt rest
  | .error _ => ⟨.errInvData, .decErr, bufR', bufC, [], rest⟩

/-- the `NoiseOutput::read` loop (`io.rs` lines 157–241), one transport event
per `io.read`.  The inner loop of `read_frame_len` is unrolled into repeated
`readLen` steps carrying its `(buf, off)` progress, exactly the state the
source stores back on `WouldBlock`.  The `.init` case is dead: `noiseRead`
below performs the source's unconditional `Init → ReadLen{[0,0],0}` rewrite
before entering this loop, and no step ever produces `.init`. -/
def runRead (dec : List Nat → Except Unit (List Nat)) :
    List REv → RState → List Nat → List Nat → Nat → RdOut
  | script, .init, bufR, bufC, _ => ⟨.stuck, .init, bufR, bufC, [], script⟩
  | script, .eofClean, bufR, bufC, _ => ⟨.okN 0, .eofClean, bufR, bufC, [], script⟩
  | script, .eofUnexp, bufR, bufC, _ => ⟨.errUnexpEof, .eofUnexp, bufR, bufC, [], script⟩
  | script, .decErr, bufR, bufC, _ => ⟨.errInvData, .decErr, bufR, bufC, [], script⟩
  | script, .copyData len off, bufR, bufC, cb => copyStep len off cb bufR bufC script
  | [], .readLen buf off, bufR, bufC, _ => ⟨.stuck, .readLen buf off, bufR, bufC, [], []⟩
  | .wb :: rest, .readLen buf off, bufR, bufC, _ =>
      ⟨.errWb, .readLen buf off, bufR, bufC, [], rest⟩
  | .bytes bs :: rest, .readLen buf off, bufR, bufC, cb =>
      let got := bs.take (2 - off)
      if got.length = 0 then ⟨.okN 0, .eofClean, bufR, bufC, [], rest⟩
      else
        let buf' := splice buf off got
        let off' := off + got.length
        if off' = 2 then
          if be16 buf' = 0 then runRead dec rest (.readLen [0, 0] 0) bufR bufC cb
          else runRead dec rest (.readData (be16 buf') 0) bufR bufC cb
        else runRead dec rest (.readLen buf' off') bufR bufC cb
  | script, .readData len off, bufR, bufC, cb =>
      if off ≤ len ∧ len ≤ bufR.length then
        match script with
        | [] => ⟨.stuck, .readData len off, bufR, bufC, [], []⟩
        | .wb :: rest => ⟨.errWb, .readData len off, bufR, bufC, [], rest⟩
        | .bytes bs :: rest =>
          let got := bs.take (len - off)
          if got.length = 0 then ⟨.errUnexpEof, .eofUnexp, bufR, bufC, [], rest⟩
          else
            let bufR' := splice bufR off got
            let off' := off + got.length
            if len = off' then decStep (dec (bufR'.take len)) cb bufR' bufC rest
            else runRead dec rest (.readData len off') bufR' bufC cb
      else ⟨.oobR, .readData len off, bufR, bufC, [], script⟩

/-- the source's unconditional `ReadState::Init → ReadLen{[0,0], 0}` rewrite. -/
def normRead : RState → RState
  | .init => .readLen [0, 0] 0
  | s => s

/-- one `NoiseOutput::read` call. -/
def noiseRead (dec : List Nat → Except Unit (List Nat)) (st : RState)
    (bufR bufC : List Nat) (cb : Nat) (script : List REv) : RdOut :=
  runRead dec script (normRead st) bufR bufC cb

/-- C4 (counterexample): with one byte of the length prefix already consumed
(`ReadLen{off = 1}`), a 0-byte transport read makes the machine enter
`Eof(clean)` and return 0 — it does not preserve the `ReadLen` state for
retry as the claim requires (`read_frame_len` returns `Ok(None)` on a 0-byte
read regardless of `off`). -/
theorem read_len_partial_prefix_eof_counterexample :
    noiseRead pureSess (.readLen [5, 0] 1) [] [] 0 [.bytes []]
      = ⟨.okN 0, .eofClean, [], [], [], []⟩ ∧
    (RState.eofClean ≠ .readLen [5, 0] 1) := by
  constructor
  · rfl
  · decide

/-- C4 (amended): in `ReadLen{buf, off}`, a 0-byte transport read transitions
the machine to `Eof(clean)` and the call returns 0 regardless of `off`; a
partially consumed length prefix (`off > 0`) is discarded, not preserved. -/
theorem read_len_zero_read_clean_eof (dec : List Nat → Except Unit (List Nat))
    (buf : List Nat) (off : Nat) (bufR bufC : List Nat) (cb : Nat)
    (rest : List REv) :
    noiseRead dec (.readLen buf off) bufR bufC cb (.bytes [] :: rest)
      = ⟨.okN 0, .eofClean, bufR, bufC, [], rest⟩ := by
  simp [noiseRead, normRead, runRead]

/-- C9 (counterexample): the `CopyData` branch does not always return at least
1 byte: with an empty decrypted payload (`len = 0`) the call copies nothing,
transitions back to `ReadLen`, and returns 0 even though the caller buffer has
room (and likewise an empty caller buffer yields 0). -/
theorem copy_data_returns_zero_counterexample :
    noiseRead pureSess (.copyData 0 0) [] [] 5 []
      = ⟨.okN 0, .readLen [0, 0] 0, [], [], [], []⟩ ∧
    noiseRead pureSess (.copyData 3 0) [] [1, 2, 3] 0 []
      = ⟨.okN 0, .copyData 3 0, [], [1, 2, 3], [], []⟩ := by
  constructor <;> rfl

/-- C9 (amended): a read call taking the `CopyData{len, off}` branch copies
exactly `min(len - off, caller buffer length)` bytes from `read_crypto[off..]`
into the caller buffer, advances `off` by that count, transitions back to
`ReadLen` exactly when `off` reaches `len`, consumes no transport bytes, and
returns the copied count — which is 0 (not ≥ 1) when the caller buffer or the
remaining payload is empty. -/
theorem copy_data_branch (dec : List Nat → Except Unit (List Nat))
    (len off : Nat) (bufR bufC : List Nat) (cb : Nat) (script : List REv)
    (hoff : off ≤ len) (hlen : len ≤ bufC.length) :
    noiseRead dec (.copyData len off) bufR bufC cb script
      = ⟨.okN (min (len - off) cb),
         if len = off + min (len - off) cb then .readLen [0, 0] 0
         else .copyData len (off + min (len - off) cb),
         bufR, bufC, (bufC.drop off).take (min (len - off) cb), script⟩ := by
  have hb : off + min (len - off) cb ≤ bufC.length := by omega
  simp [noiseRead, normRead, runRead, copyStep, hb]

/-- witness for `copy_data_branch`: payload `[10, 20]`, caller buffer of
length 1: one byte is copied and the state advances to `CopyData{2, 1}`. -/
theorem copy_data_branch_witness :
    noiseRead pureSess (.copyData 2 0) [] [10, 20] 1 []
      = ⟨.okN 1, .copyData 2 1, [], [10, 20], [10], []⟩ := by
  have h := copy_data_branch pureSess 2 0 [] [10, 20] 1 []
    (by decide) (by decide)
  simpa using h

/-! ## Framed codec, write machine (`io.rs`, `NoiseOutput::write`, `flush`,
and `write_frame_len`) -/

/-- transport write event, one per `io.write` call: `.accept k` means the
transport accepted `min(k, requested)` bytes (`.accept 0` is a 0-byte write),
`.wb` means the call returned `WouldBlock`. -/
inductive WEv
  | accept (k : Nat)
  | wb
deriving DecidableEq, Repr

/-- `WriteState` from `io.rs`. -/
inductive WState
  | initW
  | bufferData (off : Nat)
  | writeLen (len : Nat) (buf : List Nat) (off : Nat)
  | writeData (len off : Nat)
  | eofW
  | encErr
deriving DecidableEq, Repr

/-- result of one `NoiseOutput::write` call. -/
inductive WrRes
  | okN (n : Nat)
  | errWb
  | errWriteZero
  | errInvData
  | oobW
  | stuck
deriving DecidableEq, Repr

/-- full outcome of one `NoiseOutput::write` call: result, final
`write_state`, final `buffer.write` and `buffer.write_crypto`, the bytes
emitted to the transport, and the unconsumed events. -/
structure WrOut where
  res : WrRes
  st : WState
  bufW : List Nat
  bufC : List Nat
  written : List Nat
  rest : List WEv
deriving DecidableEq, Repr

/-- prepends already-emitted transport bytes to an outcome. -/
def WrOut.addW (w : List Nat) (o : WrOut) : WrOut :=
  { o with written := w ++ o.written }

/-- the `WriteState::BufferData` arm body (`io.rs` lines 250–274): accept
`n = min(16384 - off, buf.len())` caller bytes, assign
`buffer.write = Vec::from(&buf[..n])` (a replacement, not an append),
advance `off`, and on `off == 16384` encrypt the whole `buffer.write` and
move to `WriteLen`; the accepted count is returned in either case. -/
def bufferStep (enc : List Nat → Except Unit (List Nat)) (off : Nat)
    (caller bufW bufC : List Nat) (script : List WEv) : WrOut :=
  let n := min (16384 - off) caller.length
  let bufW' := caller.take n
  let off' := off + n
  if off' = 16384 then
    match enc bufW' with
    | .ok ct => ⟨.okN n, .writeLen ct.length (be16bytes ct.length) 0, bufW', ct, [], script⟩
    | .error _ => ⟨.errInvData, .encErr, bufW', bufC, [], script⟩
  else ⟨.okN n, .bufferData off', bufW', bufC, [], script⟩

/-- the `WriteLen`/`WriteData` part of the `NoiseOutput::write` loop
(`io.rs` lines 275–316), one transport event per `io.write`.  The inner loop
of `write_frame_len` is unrolled into repeated `writeLen` steps carrying its
`off` progress (its 2-byte buffer is immutable), exactly the state the source
stores back on `WouldBlock`.  Completion of `WriteData` rewrites the state to
`Init` and the loop re-enters `BufferData`, which buffers from the caller's
slice and returns — inlined here as `bufferStep` with `off = 0`.  The
`initW`, `bufferData`, `eofW` and `encErr` cases are dead: `noiseWrite` below
handles them before entering this loop, and no step ever produces them. -/
def runWrite (enc : List Nat → Except Unit (List Nat)) :
    List WEv → WState → List Nat → List Nat → List Nat → WrOut
  | script, .writeLen len buf off, bufW, bufC, caller =>
    (match script with
     | [] => ⟨.stuck, .writeLen len buf off, bufW, bufC, [], []⟩
     | .wb :: rest => ⟨.errWb, .writeLen len buf off, bufW, bufC, [], rest⟩
     | .accept k :: rest =>
       let n := min k (2 - off)
       if n = 0 then ⟨.errWriteZero, .eofW, bufW, bufC, [], rest⟩
       else
         let w := (buf.drop off).take n
         let off' := off + n
         if off' = 2 then
           WrOut.addW w (runWrite enc rest (.writeData len 0) bufW bufC caller)
         else
           WrOut.addW w (runWrite enc rest (.writeLen len buf off') bufW bufC caller))
  | script, .writeData len off, bufW, bufC, caller =>
    if off ≤ len ∧ len ≤ bufC.length then
      match script with
      | [] => ⟨.stuck, .writeData len off, bufW, bufC, [], []⟩
      | .wb :: rest => ⟨.errWb, .writeData len off, bufW, bufC, [], rest⟩
      | .accept k :: rest =>
        let n := min k (len - off)
        if n = 0 then ⟨.errWriteZero, .eofW, bufW, bufC, [], rest⟩
        else
          let w := (bufC.drop off).take n
          let off' := off + n
          if off' = len then WrOut.addW w (bufferStep enc 0 caller bufW bufC rest)
          else WrOut.addW w (runWrite enc rest (.writeData len off') bufW bufC caller)
    else ⟨.oobW, .writeData len off, bufW, bufC, [], script⟩
  | script, st, bufW, bufC, _ => ⟨.stuck, st, bufW, bufC, [], script⟩

/-- one `NoiseOutput::write` call: `Init` rewrites to `BufferData{0}`;
`BufferData` buffers and returns without touching the transport; terminal
states return their sticky error; `WriteLen`/`WriteData` drive the frame out
through `runWrite`. -/
def noiseWrite (enc : List Nat → Except Unit (List Nat)) (st : WState)
    (bufW bufC caller : List Nat) (script : List WEv) : WrOut :=
  match st with
  | .initW => bufferStep enc 0 caller bufW bufC script
  | .bufferData off => bufferStep enc off caller bufW bufC script
  | .eofW => ⟨.errWriteZero, .eofW, bufW, bufC, [], script⟩
  | .encErr => ⟨.errInvData, .encErr, bufW, bufC, [], script⟩
  | st => runWrite enc script st bufW bufC caller

/-- result of one `NoiseOutput::flush` call. -/
inductive FlRes
  | okU
  | errWb
  | errWriteZero
  | errInvData
  | oobF
  | stuck
deriving DecidableEq, Repr

/-- full outcome of one `NoiseOutput::flush` call. -/
structure FlOut where
  res : FlRes
  st : WState
  bufW : List Nat
  bufC : List Nat
  written : List Nat
  rest : List WEv
deriving DecidableEq, Repr

/-- prepends already-emitted transport bytes to a flush outcome. -/
def FlOut.addW (w : List Nat) (o : FlOut) : FlOut :=
  { o with written := w ++ o.written }

/-- the `WriteLen`/`WriteData` part of the `NoiseOutput::flush` loop
(`io.rs` lines 342–385); completion of `WriteData` rewrites the state to
`Init` and returns `Ok(())` directly.  Other cases are dead, handled by
`noiseFlush`. -/
def runFlush (enc : List Nat → Except Unit (List Nat)) :
    List WEv → WState → List Nat → List Nat → FlOut
  | script, .writeLen len buf off, bufW, bufC =>
    (match script with
     | [] => ⟨.stuck, .writeLen len buf off, bufW, bufC, [], []⟩
     | .wb :: rest => ⟨.errWb, .writeLen len buf off, bufW, bufC, [], rest⟩
     | .accept k :: rest =>
       let n := min k (2 - off)
       if n = 0 then ⟨.errWriteZero, .eofW, bufW, bufC, [], rest⟩
       else
         let w := (buf.drop off).take n
         let off' := off + n
         if off' = 2 then
           FlOut.addW w (runFlush enc rest (.writeData len 0) bufW bufC)
         else
           FlOut.addW w (runFlush enc rest (.writeLen len buf off') bufW bufC))
  | script, .writeData len off, bufW, bufC =>
    if off ≤ len ∧ len ≤ bufC.length then
      match script with
      | [] => ⟨.stuck, .writeData len off, bufW, bufC, [], []⟩
      | .wb :: rest => ⟨.errWb, .writeData len off, bufW, bufC, [], rest⟩
      | .accept k :: rest =>
        let n := min k (len - off)
        if n = 0 then ⟨.errWriteZero, .eofW, bufW, bufC, [], rest⟩
        else
          let w := (bufC.drop off).take n
          let off' := off + n
          if off' = len then ⟨.okU, .initW, bufW, bufC, w, rest⟩
          else FlOut.addW w (runFlush enc rest (.writeData len off') bufW bufC)
    else ⟨.oobF, .writeData len off, bufW, bufC, [], script⟩
  | script, st, bufW, bufC => ⟨.stuck, st, bufW, bufC, [], script⟩

/-- one `NoiseOutput::flush` call (`io.rs` lines 320–387): `Init` returns
`Ok(())`; `BufferData{off}` encrypts `buffer.write[..off]` (panicking when
`off` exceeds the buffer's length) and drives the frame out; terminal states
return their sticky error. -/
def noiseFlush (enc : List Nat → Except Unit (List Nat)) (st : WState)
    (bufW bufC : List Nat) (script : List WEv) : FlOut :=
  match st with
  | .initW => ⟨.okU, .initW, bufW, bufC, [], script⟩
  | .bufferData off =>
    if off ≤ bufW.length then
      match enc (bufW.take off) with
      | .ok ct => runFlush enc script (.writeLen ct.length (be16bytes ct.length) 0) bufW ct
      | .error _ => ⟨.errInvData, .encErr, bufW, bufC, [], script⟩
    else ⟨.oobF, .bufferData off, bufW, bufC, [], script⟩
  | .eofW => ⟨.errWriteZero, .eofW, bufW, bufC, [], script⟩
  | .encErr => ⟨.errInvData, .encErr, bufW, bufC, [], script⟩
  | st => runFlush enc script st bufW bufC

/-- C2: the claim says consecutive writes in `BufferData{off}` append to
`write_plain`, so that `write_plain[0..off]` is the concatenation of all
accepted bytes.  The source instead assigns
`self.buffer.write = Vec::from(&buf[..n])`, replacing the buffer: after
`write([1])` then `write([2])` the offset is 2 but the buffer holds only
`[2]`, not `[1, 2]` — the first byte is lost (and a later `flush`, which
encrypts `write_plain[0..off] = [..2]` of a 1-byte buffer, panics).  The
spec itself (§9) flags this as a source bug and mandates append semantics. -/
theorem buffer_data_replaces_buffer :
    noiseWrite pureSess .initW [] [] [1] [] = ⟨.okN 1, .bufferData 1, [1], [], [], []⟩ ∧
    noiseWrite pureSess (.bufferData 1) [1] [] [2] []
      = ⟨.okN 1, .bufferData 2, [2], [], [], []⟩ ∧
    ([2] : List Nat) ≠ [1, 2] := by
  refine ⟨rfl, rfl, by decide⟩

/-- C6: terminal states are sticky.  Every read on `Eof(clean)` returns 0,
on `Eof(unexpected)` returns `UnexpectedEof`, on `DecErr` returns
`InvalidData`; every write or flush on `Eof` returns `WriteZero` and on
`EncErr` returns `InvalidData`.  In all seven cases the state is unchanged,
no transport event is consumed (`rest` = whole script), no byte is emitted,
and no byte is copied to the caller. -/
theorem terminal_states_sticky (dec enc : List Nat → Except Unit (List Nat))
    (bufR bufC bufW bufWC caller : List Nat) (cb : Nat)
    (rs : List REv) (ws : List WEv) :
    noiseRead dec .eofClean bufR bufC cb rs = ⟨.okN 0, .eofClean, bufR, bufC, [], rs⟩ ∧
    noiseRead dec .eofUnexp bufR bufC cb rs
      = ⟨.errUnexpEof, .eofUnexp, bufR, bufC, [], rs⟩ ∧
    noiseRead dec .decErr bufR bufC cb rs
      = ⟨.errInvData, .decErr, bufR, bufC, [], rs⟩ ∧
    noiseWrite enc .eofW bufW bufWC caller ws
      = ⟨.errWriteZero, .eofW, bufW, bufWC, [], ws⟩ ∧
    noiseWrite enc .encErr bufW bufWC caller ws
      = ⟨.errInvData, .encErr, bufW, bufWC, [], ws⟩ ∧
    noiseFlush enc .eofW bufW bufWC ws = ⟨.errWriteZero, .eofW, bufW, bufWC, [], ws⟩ ∧
    noiseFlush enc .encErr bufW bufWC ws = ⟨.errInvData, .encErr, bufW, bufWC, [], ws⟩ := by
  refine ⟨?_, ?_, ?_, rfl, rfl, rfl, rfl⟩ <;> simp [noiseRead, normRead, runRead]

/-! ## Claim C7: would-block preservation and exact resumption

A call that hits `WouldBlock` stores back exactly the progress it had made;
formally, retrying with the remaining events behaves exactly as if the
would-block event had never been in the transport's event stream. -/

/-- states in which the read machine interacts with the transport; every
`WouldBlock` outcome of a read call stores such a state. -/
def rdActive : RState → Prop
  | .readLen _ _ => True
  | .readData _ _ => True
  | _ => False

/-- unfolding: the `Init` row of the read loop ignores the script. -/
theorem rrInit (dec : List Nat → Except Unit (List Nat)) (script : List REv)
    (bufR bufC : List Nat) (cb : Nat) :
    runRead dec script .init bufR bufC cb = ⟨.stuck, .init, bufR, bufC, [], script⟩ := by
  cases script with
  | nil => rfl
  | cons e rest => cases e <;> rfl

/-- unfolding: the `Eof(clean)` row of the read loop. -/
theorem rrEofClean (dec : List Nat → Except Unit (List Nat)) (script : List REv)
    (bufR bufC : List Nat) (cb : Nat) :
    runRead dec script .eofClean bufR bufC cb
      = ⟨.okN 0, .eofClean, bufR, bufC, [], script⟩ := by
  cases script with
  | nil => rfl
  | cons e rest => cases e <;> rfl

/-- unfolding: the `Eof(unexpected)` row of the read loop. -/
theorem rrEofUnexp (dec : List Nat → Except Unit (List Nat)) (script : List REv)
    (bufR bufC : List Nat) (cb : Nat) :
    runRead dec script .eofUnexp bufR bufC cb
      = ⟨.errUnexpEof, .eofUnexp, bufR, bufC, [], script⟩ := by
  cases script with
  | nil => rfl
  | cons e rest => cases e <;> rfl

/-- unfolding: the `DecErr` row of the read loop. -/
theorem rrDecErr (dec : List Nat → Except Unit (List Nat)) (script : List REv)
    (bufR bufC : List Nat) (cb : Nat) :
    runRead dec script .decErr bufR bufC cb
      = ⟨.errInvData, .decErr, bufR, bufC, [], script⟩ := by
  cases script with
  | nil => rfl
  | cons e rest => cases e <;> rfl

/-- unfolding: the `CopyData` row of the read loop. -/
theorem rrCopy (dec : List Nat → Except Unit (List Nat)) (script : List REv)
    (len off : Nat) (bufR bufC : List Nat) (cb : Nat) :
    runRead dec script (.copyData len off) bufR bufC cb
      = copyStep len off cb bufR bufC script := by
  cases script with
  | nil => rfl
  | cons e rest => cases e <;> rfl

/-- unfolding: `ReadLen` on an exhausted script. -/
theorem rrNilReadLen (dec : List Nat → Except Unit (List Nat)) (buf : List Nat)
    (off : Nat) (bufR bufC : List Nat) (cb : Nat) :
    runRead dec [] (.readLen buf off) bufR bufC cb
      = ⟨.stuck, .readLen buf off, bufR, bufC, [], []⟩ := rfl

/-- unfolding: `ReadLen` on a would-block event. -/
theorem rrWbReadLen (dec : List Nat → Except Unit (List Nat)) (rest : List REv)
    (buf : List Nat) (off : Nat) (bufR bufC : List Nat) (cb : Nat) :
    runRead dec (.wb :: rest) (.readLen buf off) bufR bufC cb
      = ⟨.errWb, .readLen buf off, bufR, bufC, [], rest⟩ := rfl

/-- unfolding: `ReadLen` on a bytes event. -/
theorem rrBytesReadLen (dec : List Nat → Except Unit (List Nat)) (bs : List Nat)
    (rest : List REv) (buf : List Nat) (off : Nat) (bufR bufC : List Nat) (cb : Nat) :
    runRead dec (.bytes bs :: rest) (.readLen buf off) bufR bufC cb
      = if (bs.take (2 - off)).length = 0 then ⟨.okN 0, .eofClean, bufR, bufC, [], rest⟩
        else if off + (bs.take (2 - off)).length = 2 then
          (if be16 (splice buf off (bs.take (2 - off))) = 0 then
             runRead dec rest (.readLen [0, 0] 0) bufR bufC cb
           else
             runRead dec rest (.readData (be16 (splice buf off (bs.take (2 - off)))) 0)
               bufR bufC cb)
        else
          runRead dec rest
            (.readLen (splice buf off (bs.take (2 - off))) (off + (bs.take (2 - off)).length))
            bufR bufC cb := rfl

/-- unfolding: `ReadData` on an exhausted script. -/
theorem rrNilReadData (dec : List Nat → Except Unit (List Nat)) (len off : Nat)
    (bufR bufC : List Nat) (cb : Nat) :
    runRead dec [] (.readData len off) bufR bufC cb
      = if off ≤ len ∧ len ≤ bufR.length then
          ⟨.stuck, .readData len off, bufR, bufC, [], []⟩
        else ⟨.oobR, .readData len off, bufR, bufC, [], []⟩ := rfl

/-- unfolding: `ReadData` on a would-block event. -/
theorem rrWbReadData (dec : List Nat → Except Unit (List Nat)) (rest : List REv)
    (len off : Nat) (bufR bufC : List Nat) (cb : Nat) :
    runRead dec (.wb :: rest) (.readData len off) bufR bufC cb
      = if off ≤ len ∧ len ≤ bufR.length then
          ⟨.errWb, .readData len off, bufR, bufC, [], rest⟩
        else ⟨.oobR, .readData len off, bufR, bufC, [], .wb :: rest⟩ := rfl

/-- unfolding: `ReadData` on a bytes event. -/
theorem rrBytesReadData (dec : List Nat → Except Unit (List Nat)) (bs : List Nat)
    (rest : List REv) (len off : Nat) (bufR bufC : List Nat) (cb : Nat) :
    runRead dec (.bytes bs :: rest) (.readData len off) bufR bufC cb
      = if off ≤ len ∧ len ≤ bufR.length then
          (if (bs.take (len - off)).length = 0 then
             ⟨.errUnexpEof, .eofUnexp, bufR, bufC, [], rest⟩
           else if len = off + (bs.take (len - off)).length then
             decStep (dec ((splice bufR off (bs.take (len - off))).take len)) cb
               (splice bufR off (bs.take (len - off))) bufC rest
           else
             runRead dec rest (.readData len (off + (bs.take (len - off)).length))
               (splice bufR off (bs.take (len - off))) bufC cb)
        else ⟨.oobR, .readData len off, bufR, bufC, [], .bytes bs :: rest⟩ := rfl

/-- a read-call outcome that propagates `WouldBlock` always stores back an
active (`ReadLen`/`ReadData`) state. -/
theorem runRead_wb_active (dec : List Nat → Except Unit (List Nat)) :
    ∀ (script : List REv) (st : RState) (bufR bufC : List Nat) (cb : Nat),
      (runRead dec script st bufR bufC cb).res = .errWb →
      rdActive (runRead dec script st bufR bufC cb).st := by
  intro script
  induction script with
  | nil =>
    intro st bufR bufC cb h
    cases st with
    | init => rw [rrInit] at h; simp at h
    | eofClean => rw [rrEofClean] at h; simp at h
    | eofUnexp => rw [rrEofUnexp] at h; simp at h
    | decErr => rw [rrDecErr] at h; simp at h
    | copyData len off =>
      rw [rrCopy] at h
      simp only [copyStep] at h
      split at h <;> simp at h
    | readLen buf off => rw [rrNilReadLen] at h; simp at h
    | readData len off =>
      rw [rrNilReadData] at h
      split at h <;> simp at h
  | cons e rest ih =>
    intro st bufR bufC cb h
    cases st with
    | init => rw [rrInit] at h; simp at h
    | eofClean => rw [rrEofClean] at h; simp at h
    | eofUnexp => rw [rrEofUnexp] at h; simp at h
    | decErr => rw [rrDecErr] at h; simp at h
    | copyData len off =>
      rw [rrCopy] at h
      simp only [copyStep] at h
      split at h <;> simp at h
    | readLen buf off =>
      cases e with
      | wb => rw [rrWbReadLen] at h ⊢; simp [rdActive]
      | bytes bs =>
        rw [rrBytesReadLen] at h ⊢
        by_cases hg : (bs.take (2 - off)).length = 0
        · rw [if_pos hg] at h; simp at h
        · rw [if_neg hg] at h ⊢
          by_cases ho : off + (bs.take (2 - off)).length = 2
          · rw [if_pos ho] at h ⊢
            by_cases hz : be16 (splice buf off (bs.take (2 - off))) = 0
            · rw [if_pos hz] at h ⊢; exact ih _ _ _ _ h
            · rw [if_neg hz] at h ⊢; exact ih _ _ _ _ h
          · rw [if_neg ho] at h ⊢; exact ih _ _ _ _ h
    | readData len off =>
      by_cases hb : off ≤ len ∧ len ≤ bufR.length
      · cases e with
        | wb => rw [rrWbReadData, if_pos hb] at h ⊢; simp [rdActive]
        | bytes bs =>
          rw [rrBytesReadData, if_pos hb] at h ⊢
          by_cases hg : (bs.take (len - off)).length = 0
          · rw [if_pos hg] at h; simp at h
          · rw [if_neg hg] at h ⊢
            by_cases hc : len = off + (bs.take (len - off)).length
            · rw [if_pos hc] at h
              rcases hdec : dec ((splice bufR off (bs.take (len - off))).take len)
                with u | pt
              · rw [hdec] at h
                simp only [decStep] at h
                simp at h
              · rw [hdec] at h
                simp only [decStep, copyStep] at h
                split at h <;> simp at h
            · rw [if_neg hc] at h ⊢
              exact ih _ _ _ _ h
      · cases e with
        | wb => rw [rrWbReadData, if_neg hb] at h; simp at h
        | bytes bs => rw [rrBytesReadData, if_neg hb] at h; simp at h

/-- resumption for the read loop: if a call starting in `st` consumes `pre`
and then hits a would-block event, it returns `WouldBlock` together with a
stored state from which retrying on the remaining events behaves exactly as
if the would-block event had never been in the stream — no byte is lost or
duplicated. -/
theorem runRead_wb_resume (dec : List Nat → Except Unit (List Nat)) :
    ∀ (pre : List REv) (st : RState) (bufR bufC : List Nat) (cb : Nat)
      (suffix : List REv) (st2 : RState) (bR2 bC2 : List Nat),
      runRead dec (pre ++ .wb :: suffix) st bufR bufC cb
        = ⟨.errWb, st2, bR2, bC2, [], suffix⟩ →
      runRead dec suffix st2 bR2 bC2 cb = runRead dec (pre ++ suffix) st bufR bufC cb := by
  intro pre
  induction pre with
  | nil =>
    intro st bufR bufC cb suffix st2 bR2 bC2 h
    rw [List.nil_append] at h ⊢
    cases st with
    | init => rw [rrInit, RdOut.mk.injEq] at h; simp at h
    | eofClean => rw [rrEofClean, RdOut.mk.injEq] at h; simp at h
    | eofUnexp => rw [rrEofUnexp, RdOut.mk.injEq] at h; simp at h
    | decErr => rw [rrDecErr, RdOut.mk.injEq] at h; simp at h
    | copyData len off =>
      rw [rrCopy] at h; simp only [copyStep] at h; split at h <;>
        rw [RdOut.mk.injEq] at h <;> simp at h
    | readLen buf off =>
      rw [rrWbReadLen, RdOut.mk.injEq] at h
      obtain ⟨-, h2, h3, h4, -, -⟩ := h
      subst h2; subst h3; subst h4
      rfl
    | readData len off =>
      by_cases hb : off ≤ len ∧ len ≤ bufR.length
      · rw [rrWbReadData, if_pos hb, RdOut.mk.injEq] at h
        obtain ⟨-, h2, h3, h4, -, -⟩ := h
        subst h2; subst h3; subst h4
        rfl
      · rw [rrWbReadData, if_neg hb, RdOut.mk.injEq] at h; simp at h
  | cons e pre ih =>
    intro st bufR bufC cb suffix st2 bR2 bC2 h
    rw [List.cons_append] at h ⊢
    cases st with
    | init => rw [rrInit, RdOut.mk.injEq] at h; simp at h
    | eofClean => rw [rrEofClean, RdOut.mk.injEq] at h; simp at h
    | eofUnexp => rw [rrEofUnexp, RdOut.mk.injEq] at h; simp at h
    | decErr => rw [rrDecErr, RdOut.mk.injEq] at h; simp at h
    | copyData len off =>
      rw [rrCopy] at h; simp only [copyStep] at h; split at h <;>
        rw [RdOut.mk.injEq] at h <;> simp at h
    | readLen buf off =>
      cases e with
      | wb =>
        rw [rrWbReadLen, RdOut.mk.injEq] at h
        obtain ⟨-, -, -, -, -, hs⟩ := h
        have hl := congrArg List.length hs
        rw [List.length_append, List.length_cons] at hl
        omega
      | bytes bs =>
        rw [rrBytesReadLen] at h ⊢
        by_cases hg : (bs.take (2 - off)).length = 0
        · rw [if_pos hg, RdOut.mk.injEq] at h; simp at h
        · rw [if_neg hg] at h ⊢
          by_cases ho : off + (bs.take (2 - off)).length = 2
          · rw [if_pos ho] at h ⊢
            by_cases hz : be16 (splice buf off (bs.take (2 - off))) = 0
            · rw [if_pos hz] at h ⊢; exact ih _ _ _ _ _ _ _ _ h
            · rw [if_neg hz] at h ⊢; exact ih _ _ _ _ _ _ _ _ h
          · rw [if_neg ho] at h ⊢; exact ih _ _ _ _ _ _ _ _ h
    | readData len off =>
      by_cases hb : off ≤ len ∧ len ≤ bufR.length
      · cases e with
        | wb =>
          rw [rrWbReadData, if_pos hb, RdOut.mk.injEq] at h
          obtain ⟨-, -, -, -, -, hs⟩ := h
          have hl := congrArg List.length hs
          rw [List.length_append, List.length_cons] at hl
          omega
        | bytes bs =>
          rw [rrBytesReadData, if_pos hb] at h ⊢
          by_cases hg : (bs.take (len - off)).length = 0
          · rw [if_pos hg, RdOut.mk.injEq] at h; simp at h
          · rw [if_neg hg] at h ⊢
            by_cases hc : len = off + (bs.take (len - off)).length
            · rw [if_pos hc] at h
              rcases hdec : dec ((splice bufR off (bs.take (len - off))).take len)
                with u | pt
              · rw [hdec] at h
                simp only [decStep] at h
                rw [RdOut.mk.injEq] at h; simp at h
              · rw [hdec] at h
                simp only [decStep, copyStep] at h
                split at h <;> rw [RdOut.mk.injEq] at h <;> simp at h
            · rw [if_neg hc] at h ⊢
              exact ih _ _ _ _ _ _ _ _ h
      · cases e with
        | wb => rw [rrWbReadData, if_neg hb, RdOut.mk.injEq] at h; simp at h
        | bytes bs => rw [rrBytesReadData, if_neg hb, RdOut.mk.injEq] at h; simp at h

/-- resumption holds at the level of `NoiseOutput::read` calls. -/
theorem noiseRead_wb_resume (dec : List Nat → Except Unit (List Nat))
    (st : RState) (bufR bufC : List Nat) (cb : Nat) (pre suffix : List REv)
    (st2 : RState) (bR2 bC2 : List Nat)
    (h : noiseRead dec st bufR bufC cb (pre ++ .wb :: suffix)
           = ⟨.errWb, st2, bR2, bC2, [], suffix⟩) :
    noiseRead dec st2 bR2 bC2 cb suffix = noiseRead dec st bufR bufC cb (pre ++ suffix) := by
  unfold noiseRead at h ⊢
  have hres : (runRead dec (pre ++ .wb :: suffix) (normRead st) bufR bufC cb).res
      = .errWb := by rw [h]
  have hact := runRead_wb_active dec (pre ++ .wb :: suffix) (normRead st) bufR bufC cb hres
  rw [h] at hact
  have hnorm : normRead st2 = st2 := by
    cases st2 with
    | init => exact hact.elim
    | readLen b o => rfl
    | readData l o => rfl
    | copyData l o => rfl
    | eofClean => rfl
    | eofUnexp => rfl
    | decErr => rfl
  rw [hnorm]
  exact runRead_wb_resume dec pre (normRead st) bufR bufC cb suffix st2 bR2 bC2 h

/-- projection: `addW` does not change the result. -/
theorem addW_res (w : List Nat) (o : WrOut) : (WrOut.addW w o).res = o.res := rfl

/-- identity: prepending no bytes changes nothing. -/
theorem addW_nil (o : WrOut) : WrOut.addW [] o = o := rfl

/-- composition of prepended transport bytes. -/
theorem addW_addW (a b : List Nat) (o : WrOut) :
    WrOut.addW a (WrOut.addW b o) = WrOut.addW (a ++ b) o := by
  simp [WrOut.addW]

/-- states in which the write machine interacts with the transport; every
`WouldBlock` outcome of a write call stores such a state. -/
def wrActive : WState → Prop
  | .writeLen _ _ _ => True
  | .writeData _ _ => True
  | _ => False

/-- unfolding: the rows of the write loop that do not touch the transport
(`Init`, `BufferData`, `Eof`, `EncErr` are handled by `noiseWrite`). -/
theorem rwDeadInitW (enc : List Nat → Except Unit (List Nat)) (script : List WEv)
    (bufW bufC caller : List Nat) :
    runWrite enc script .initW bufW bufC caller
      = ⟨.stuck, .initW, bufW, bufC, [], script⟩ := by
  cases script with
  | nil => rfl
  | cons e r => cases e <;> rfl

/-- unfolding: the dead `BufferData` row of the write loop. -/
theorem rwDeadBufferData (enc : List Nat → Except Unit (List Nat)) (script : List WEv)
    (off : Nat) (bufW bufC caller : List Nat) :
    runWrite enc script (.bufferData off) bufW bufC caller
      = ⟨.stuck, .bufferData off, bufW, bufC, [], script⟩ := by
  cases script with
  | nil => rfl
  | cons e r => cases e <;> rfl

/-- unfolding: the dead `Eof` row of the write loop. -/
theorem rwDeadEofW (enc : List Nat → Except Unit (List Nat)) (script : List WEv)
    (bufW bufC caller : List Nat) :
    runWrite enc script .eofW bufW bufC caller
      = ⟨.stuck, .eofW, bufW, bufC, [], script⟩ := by
  cases script with
  | nil => rfl
  | cons e r => cases e <;> rfl

/-- unfolding: the dead `EncErr` row of the write loop. -/
theorem rwDeadEncErr (enc : List Nat → Except Unit (List Nat)) (script : List WEv)
    (bufW bufC caller : List Nat) :
    runWrite enc script .encErr bufW bufC caller
      = ⟨.stuck, .encErr, bufW, bufC, [], script⟩ := by
  cases script with
  | nil => rfl
  | cons e r => cases e <;> rfl

/-- unfolding: `WriteLen` on an exhausted script. -/
theorem rwNilWriteLen (enc : List Nat → Except Unit (List Nat)) (len : Nat)
    (buf : List Nat) (off : Nat) (bufW bufC caller : List Nat) :
    runWrite enc [] (.writeLen len buf off) bufW bufC caller
      = ⟨.stuck, .writeLen len buf off, bufW, bufC, [], []⟩ := rfl

/-- unfolding: `WriteLen` on a would-block event. -/
theorem rwWbWriteLen (enc : List Nat → Except Unit (List Nat)) (rest : List WEv)
    (len : Nat) (buf : List Nat) (off : Nat) (bufW bufC caller : List Nat) :
    runWrite enc (.wb :: rest) (.writeLen len buf off) bufW bufC caller
      = ⟨.errWb, .writeLen len buf off, bufW, bufC, [], rest⟩ := rfl

/-- unfolding: `WriteLen` on an accept event. -/
theorem rwAcceptWriteLen (enc : List Nat → Except Unit (List Nat)) (k : Nat)
    (rest : List WEv) (len : Nat) (buf : List Nat) (off : Nat)
    (bufW bufC caller : List Nat) :
    runWrite enc (.accept k :: rest) (.writeLen len buf off) bufW bufC caller
      = if min k (2 - off) = 0 then ⟨.errWriteZero, .eofW, bufW, bufC, [], rest⟩
        else if off + min k (2 - off) = 2 then
          WrOut.addW ((buf.drop off).take (min k (2 - off)))
            (runWrite enc rest (.writeData len 0) bufW bufC caller)
        else
          WrOut.addW ((buf.drop off).take (min k (2 - off)))
            (runWrite enc rest (.writeLen len buf (off + min k (2 - off))) bufW bufC caller)
      := rfl

/-- unfolding: `WriteData` on an exhausted script. -/
theorem rwNilWriteData (enc : List Nat → Except Unit (List Nat)) (len off : Nat)
    (bufW bufC caller : List Nat) :
    runWrite enc [] (.writeData len off) bufW bufC caller
      = if off ≤ len ∧ len ≤ bufC.length then
          ⟨.stuck, .writeData len off, bufW, bufC, [], []⟩
        else ⟨.oobW, .writeData len off, bufW, bufC, [], []⟩ := rfl

/-- unfolding: `WriteData` on a would-block event. -/
theorem rwWbWriteData (enc : List Nat → Except Unit (List Nat)) (rest : List WEv)
    (len off : Nat) (bufW bufC caller : List Nat) :
    runWrite enc (.wb :: rest) (.writeData len off) bufW bufC caller
      = if off ≤ len ∧ len ≤ bufC.length then
          ⟨.errWb, .writeData len off, bufW, bufC, [], rest⟩
        else ⟨.oobW, .writeData len off, bufW, bufC, [], .wb :: rest⟩ := rfl

/-- unfolding: `WriteData` on an accept event. -/
theorem rwAcceptWriteData (enc : List Nat → Except Unit (List Nat)) (k : Nat)
    (rest : List WEv) (len off : Nat) (bufW bufC caller : List Nat) :
    runWrite enc (.accept k :: rest) (.writeData len off) bufW bufC caller
      = if off ≤ len ∧ len ≤ bufC.length then
          (if min k (len - off) = 0 then ⟨.errWriteZero, .eofW, bufW, bufC, [], rest⟩
           else if off + min k (len - off) = len then
             WrOut.addW ((bufC.drop off).take (min k (len - off)))
               (bufferStep enc 0 caller bufW bufC rest)
           else
             WrOut.addW ((bufC.drop off).take (min k (len - off)))
               (runWrite enc rest (.writeData len (off + min k (len - off))) bufW bufC caller))
        else ⟨.oobW, .writeData len off, bufW, bufC, [], .accept k :: rest⟩ := rfl

/-- a `BufferData` step never returns `WouldBlock` (it does not touch the
transport). -/
theorem bufferStep_res_ne_wb (enc : List Nat → Except Unit (List Nat)) (off : Nat)
    (caller bufW bufC : List Nat) (script : List WEv) :
    (bufferStep enc off caller bufW bufC script).res ≠ .errWb := by
  simp only [bufferStep]
  split
  · cases enc (caller.take (min (16384 - off) caller.length)) <;> simp
  · simp

/-- projection: `addW` does not change the stored state. -/
theorem addW_st (w : List Nat) (o : WrOut) : (WrOut.addW w o).st = o.st := rfl

/-- a write-call outcome that propagates `WouldBlock` always stores back an
active (`WriteLen`/`WriteData`) state. -/
theorem runWrite_wb_active (enc : List Nat → Except Unit (List Nat)) :
    ∀ (script : List WEv) (st : WState) (bufW bufC caller : List Nat),
      (runWrite enc script st bufW bufC caller).res = .errWb →
      wrActive (runWrite enc script st bufW bufC caller).st := by
  intro script
  induction script with
  | nil =>
    intro st bufW bufC caller h
    cases st with
    | initW => rw [rwDeadInitW] at h; simp at h
    | bufferData off => rw [rwDeadBufferData] at h; simp at h
    | eofW => rw [rwDeadEofW] at h; simp at h
    | encErr => rw [rwDeadEncErr] at h; simp at h
    | writeLen len buf off => rw [rwNilWriteLen] at h; simp at h
    | writeData len off => rw [rwNilWriteData] at h; split at h <;> simp at h
  | cons e rest ih =>
    intro st bufW bufC caller h
    cases st with
    | initW => rw [rwDeadInitW] at h; simp at h
    | bufferData off => rw [rwDeadBufferData] at h; simp at h
    | eofW => rw [rwDeadEofW] at h; simp at h
    | encErr => rw [rwDeadEncErr] at h; simp at h
    | writeLen len buf off =>
      cases e with
      | wb => rw [rwWbWriteLen] at h ⊢; simp [wrActive]
      | accept k =>
        rw [rwAcceptWriteLen] at h ⊢
        by_cases hn : min k (2 - off) = 0
        · rw [if_pos hn] at h; simp at h
        · rw [if_neg hn] at h ⊢
          by_cases ho : off + min k (2 - off) = 2
          · rw [if_pos ho] at h ⊢
            rw [addW_res] at h
            rw [addW_st]
            exact ih _ _ _ _ h
          · rw [if_neg ho] at h ⊢
            rw [addW_res] at h
            rw [addW_st]
            exact ih _ _ _ _ h
    | writeData len off =>
      by_cases hb : off ≤ len ∧ len ≤ bufC.length
      · cases e with
        | wb => rw [rwWbWriteData, if_pos hb] at h ⊢; simp [wrActive]
        | accept k =>
          rw [rwAcceptWriteData, if_pos hb] at h ⊢
          by_cases hn : min k (len - off) = 0
          · rw [if_pos hn] at h; simp at h
          · rw [if_neg hn] at h ⊢
            by_cases hc : off + min k (len - off) = len
            · rw [if_pos hc] at h
              rw [addW_res] at h
              exact absurd h (bufferStep_res_ne_wb enc 0 caller bufW bufC rest)
            · rw [if_neg hc] at h ⊢
              rw [addW_res] at h
              rw [addW_st]
              exact ih _ _ _ _ h
      · cases e with
        | wb => rw [rwWbWriteData, if_neg hb] at h; simp at h
        | accept k => rw [rwAcceptWriteData, if_neg hb] at h; simp at h

/-- resumption for the write loop: if a call starting in `st` consumes `pre`,
emits `w1` to the transport, and then hits a would-block event, retrying from
the stored state on the remaining events continues exactly where it stopped —
the combined emitted bytes are `w1` followed by the retry's bytes, and no
byte is lost or duplicated. -/
theorem runWrite_wb_resume (enc : List Nat → Except Unit (List Nat)) :
    ∀ (pre : List WEv) (st : WState) (bufW bufC caller : List Nat)
      (suffix : List WEv) (st2 : WState) (bW2 bC2 w1 : List Nat),
      runWrite enc (pre ++ .wb :: suffix) st bufW bufC caller
        = ⟨.errWb, st2, bW2, bC2, w1, suffix⟩ →
      runWrite enc (pre ++ suffix) st bufW bufC caller
        = WrOut.addW w1 (runWrite enc suffix st2 bW2 bC2 caller) := by
  intro pre
  induction pre with
  | nil =>
    intro st bufW bufC caller suffix st2 bW2 bC2 w1 h
    rw [List.nil_append] at h ⊢
    cases st with
    | initW => rw [rwDeadInitW, WrOut.mk.injEq] at h; simp at h
    | bufferData off => rw [rwDeadBufferData, WrOut.mk.injEq] at h; simp at h
    | eofW => rw [rwDeadEofW, WrOut.mk.injEq] at h; simp at h
    | encErr => rw [rwDeadEncErr, WrOut.mk.injEq] at h; simp at h
    | writeLen len buf off =>
      rw [rwWbWriteLen, WrOut.mk.injEq] at h
      obtain ⟨-, h2, h3, h4, h5, -⟩ := h
      subst h2; subst h3; subst h4; subst h5
      rw [addW_nil]
    | writeData len off =>
      by_cases hb : off ≤ len ∧ len ≤ bufC.length
      · rw [rwWbWriteData, if_pos hb, WrOut.mk.injEq] at h
        obtain ⟨-, h2, h3, h4, h5, -⟩ := h
        subst h2; subst h3; subst h4; subst h5
        rw [addW_nil]
      · rw [rwWbWriteData, if_neg hb, WrOut.mk.injEq] at h; simp at h
  | cons e pre ih =>
    intro st bufW bufC caller suffix st2 bW2 bC2 w1 h
    rw [List.cons_append] at h ⊢
    cases st with
    | initW => rw [rwDeadInitW, WrOut.mk.injEq] at h; simp at h
    | bufferData off => rw [rwDeadBufferData, WrOut.mk.injEq] at h; simp at h
    | eofW => rw [rwDeadEofW, WrOut.mk.injEq] at h; simp at h
    | encErr => rw [rwDeadEncErr, WrOut.mk.injEq] at h; simp at h
    | writeLen len buf off =>
      cases e with
      | wb =>
        rw [rwWbWriteLen, WrOut.mk.injEq] at h
        obtain ⟨-, -, -, -, -, hs⟩ := h
        have hl := congrArg List.length hs
        rw [List.length_append, List.length_cons] at hl
        omega
      | accept k =>
        rw [rwAcceptWriteLen] at h ⊢
        by_cases hn : min k (2 - off) = 0
        · rw [if_pos hn, WrOut.mk.injEq] at h; simp at h
        · rw [if_neg hn] at h ⊢
          by_cases ho : off + min k (2 - off) = 2
          · rw [if_pos ho] at h ⊢
            rcases hx : runWrite enc (pre ++ .wb :: suffix) (.writeData len 0) bufW bufC caller
              with ⟨r', s', bw', bc', ww', rr'⟩
            rw [hx] at h
            have h' : (⟨r', s', bw', bc',
                ((buf.drop off).take (min k (2 - off))) ++ ww', rr'⟩ : WrOut)
                = ⟨.errWb, st2, bW2, bC2, w1, suffix⟩ := h
            rw [WrOut.mk.injEq] at h'
            obtain ⟨h1, h2, h3, h4, h5, h6⟩ := h'
            subst h1; subst h2; subst h3; subst h4; subst h6
            have hih := ih _ _ _ _ _ _ _ _ _ hx
            rw [hih, addW_addW, h5]
          · rw [if_neg ho] at h ⊢
            rcases hx : runWrite enc (pre ++ .wb :: suffix)
                (.writeLen len buf (off + min k (2 - off))) bufW bufC caller
              with ⟨r', s', bw', bc', ww', rr'⟩
            rw [hx] at h
            have h' : (⟨r', s', bw', bc',
                ((buf.drop off).take (min k (2 - off))) ++ ww', rr'⟩ : WrOut)
                = ⟨.errWb, st2, bW2, bC2, w1, suffix⟩ := h
            rw [WrOut.mk.injEq] at h'
            obtain ⟨h1, h2, h3, h4, h5, h6⟩ := h'
            subst h1; subst h2; subst h3; subst h4; subst h6
            have hih := ih _ _ _ _ _ _ _ _ _ hx
            rw [hih, addW_addW, h5]
    | writeData len off =>
      by_cases hb : off ≤ len ∧ len ≤ bufC.length
      · cases e with
        | wb =>
          rw [rwWbWriteData, if_pos hb, WrOut.mk.injEq] at h
          obtain ⟨-, -, -, -, -, hs⟩ := h
          have hl := congrArg List.length hs
          rw [List.length_append, List.length_cons] at hl
          omega
        | accept k =>
          rw [rwAcceptWriteData, if_pos hb] at h ⊢
          by_cases hn : min k (len - off) = 0
          · rw [if_pos hn, WrOut.mk.injEq] at h; simp at h
          · rw [if_neg hn] at h ⊢
            by_cases hc : off + min k (len - off) = len
            · rw [if_pos hc] at h
              have hr := congrArg WrOut.res h
              rw [addW_res] at hr
              exact absurd hr (bufferStep_res_ne_wb enc 0 caller bufW bufC
                (pre ++ .wb :: suffix))
            · rw [if_neg hc] at h ⊢
              rcases hx : runWrite enc (pre ++ .wb :: suffix)
                  (.writeData len (off + min k (len - off))) bufW bufC caller
                with ⟨r', s', bw', bc', ww', rr'⟩
              rw [hx] at h
              have h' : (⟨r', s', bw', bc',
                  ((bufC.drop off).take (min k (len - off))) ++ ww', rr'⟩ : WrOut)
                  = ⟨.errWb, st2, bW2, bC2, w1, suffix⟩ := h
              rw [WrOut.mk.injEq] at h'
              obtain ⟨h1, h2, h3, h4, h5, h6⟩ := h'
              subst h1; subst h2; subst h3; subst h4; subst h6
              have hih := ih _ _ _ _ _ _ _ _ _ hx
              rw [hih, addW_addW, h5]
      · cases e with
        | wb => rw [rwWbWriteData, if_neg hb, WrOut.mk.injEq] at h; simp at h
        | accept k => rw [rwAcceptWriteData, if_neg hb, WrOut.mk.injEq] at h; simp at h

/-- resumption holds at the level of `NoiseOutput::write` calls. -/
theorem noiseWrite_wb_resume (enc : List Nat → Except Unit (List Nat))
    (st : WState) (bufW bufC caller : List Nat) (pre suffix : List WEv)
    (st2 : WState) (bW2 bC2 w1 : List Nat)
    (h : noiseWrite enc st bufW bufC caller (pre ++ .wb :: suffix)
           = ⟨.errWb, st2, bW2, bC2, w1, suffix⟩) :
    noiseWrite enc st bufW bufC caller (pre ++ suffix)
      = WrOut.addW w1 (noiseWrite enc st2 bW2 bC2 caller suffix) := by
  cases st with
  | initW =>
    have hr := congrArg WrOut.res h
    exact absurd hr (bufferStep_res_ne_wb enc 0 caller bufW bufC (pre ++ .wb :: suffix))
  | bufferData off =>
    have hr := congrArg WrOut.res h
    exact absurd hr (bufferStep_res_ne_wb enc off caller bufW bufC (pre ++ .wb :: suffix))
  | eofW =>
    have h' : (⟨.errWriteZero, .eofW, bufW, bufC, [], pre ++ .wb :: suffix⟩ : WrOut)
        = ⟨.errWb, st2, bW2, bC2, w1, suffix⟩ := h
    rw [WrOut.mk.injEq] at h'
    simp at h'
  | encErr =>
    have h' : (⟨.errInvData, .encErr, bufW, bufC, [], pre ++ .wb :: suffix⟩ : WrOut)
        = ⟨.errWb, st2, bW2, bC2, w1, suffix⟩ := h
    rw [WrOut.mk.injEq] at h'
    simp at h'
  | writeLen len buf off =>
    have h' : runWrite enc (pre ++ .wb :: suffix) (.writeLen len buf off) bufW bufC caller
        = ⟨.errWb, st2, bW2, bC2, w1, suffix⟩ := h
    have hres : (runWrite enc (pre ++ .wb :: suffix) (.writeLen len buf off)
        bufW bufC caller).res = .errWb := by rw [h']
    have hact := runWrite_wb_active enc _ _ _ _ _ hres
    rw [h'] at hact
    have hact2 : wrActive st2 := hact
    have hdisp : noiseWrite enc st2 bW2 bC2 caller suffix
        = runWrite enc suffix st2 bW2 bC2 caller := by
      cases st2 with
      | writeLen a b c => rfl
      | writeData a b => rfl
      | initW => exact hact2.elim
      | bufferData o => exact hact2.elim
      | eofW => exact hact2.elim
      | encErr => exact hact2.elim
    have hgoal : runWrite enc (pre ++ suffix) (.writeLen len buf off) bufW bufC caller
        = WrOut.addW w1 (runWrite enc suffix st2 bW2 bC2 caller) :=
      runWrite_wb_resume enc pre _ _ _ _ _ _ _ _ _ h'
    rw [show noiseWrite enc (.writeLen len buf off) bufW bufC caller (pre ++ suffix)
        = runWrite enc (pre ++ suffix) (.writeLen len buf off) bufW bufC caller from rfl,
      hgoal, hdisp]
  | writeData len off =>
    have h' : runWrite enc (pre ++ .wb :: suffix) (.writeData len off) bufW bufC caller
        = ⟨.errWb, st2, bW2, bC2, w1, suffix⟩ := h
    have hres : (runWrite enc (pre ++ .wb :: suffix) (.writeData len off)
        bufW bufC caller).res = .errWb := by rw [h']
    have hact := runWrite_wb_active enc _ _ _ _ _ hres
    rw [h'] at hact
    have hact2 : wrActive st2 := hact
    have hdisp : noiseWrite enc st2 bW2 bC2 caller suffix
        = runWrite enc suffix st2 bW2 bC2 caller := by
      cases st2 with
      | writeLen a b c => rfl
      | writeData a b => rfl
      | initW => exact hact2.elim
      | bufferData o => exact hact2.elim
      | eofW => exact hact2.elim
      | encErr => exact hact2.elim
    have hgoal : runWrite enc (pre ++ suffix) (.writeData len off) bufW bufC caller
        = WrOut.addW w1 (runWrite enc suffix st2 bW2 bC2 caller) :=
      runWrite_wb_resume enc pre _ _ _ _ _ _ _ _ _ h'
    rw [show noiseWrite enc (.writeData len off) bufW bufC caller (pre ++ suffix)
        = runWrite enc (pre ++ suffix) (.writeData len off) bufW bufC caller from rfl,
      hgoal, hdisp]

/-- projection: flush `addW` does not change the result. -/
theorem addWF_res (w : List Nat) (o : FlOut) : (FlOut.addW w o).res = o.res := rfl

/-- projection: flush `addW` does not change the stored state. -/
theorem addWF_st (w : List Nat) (o : FlOut) : (FlOut.addW w o).st = o.st := rfl

/-- identity: prepending no bytes changes nothing. -/
theorem addWF_nil (o : FlOut) : FlOut.addW [] o = o := rfl

/-- composition of prepended transport bytes. -/
theorem addWF_addW (a b : List Nat) (o : FlOut) :
    FlOut.addW a (FlOut.addW b o) = FlOut.addW (a ++ b) o := by
  simp [FlOut.addW]

/-- unfolding: the dead rows of the flush loop (`Init`, `BufferData`, `Eof`,
`EncErr` are handled by `noiseFlush`). -/
theorem rfDeadInitW (enc : List Nat → Except Unit (List Nat)) (script : List WEv)
    (bufW bufC : List Nat) :
    runFlush enc script .initW bufW bufC = ⟨.stuck, .initW, bufW, bufC, [], script⟩ := by
  cases script with
  | nil => rfl
  | cons e r => cases e <;> rfl

/-- unfolding: the dead `BufferData` row of the flush loop. -/
theorem rfDeadBufferData (enc : List Nat → Except Unit (List Nat)) (script : List WEv)
    (off : Nat) (bufW bufC : List Nat) :
    runFlush enc script (.bufferData off) bufW bufC
      = ⟨.stuck, .bufferData off, bufW, bufC, [], script⟩ := by
  cases script with
  | nil => rfl
  | cons e r => cases e <;> rfl

/-- unfolding: the dead `Eof` row of the flush loop. -/
theorem rfDeadEofW (enc : List Nat → Except Unit (List Nat)) (script : List WEv)
    (bufW bufC : List Nat) :
    runFlush enc script .eofW bufW bufC = ⟨.stuck, .eofW, bufW, bufC, [], script⟩ := by
  cases script with
  | nil => rfl
  | cons e r => cases e <;> rfl

/-- unfolding: the dead `EncErr` row of the flush loop. -/
theorem rfDeadEncErr (enc : List Nat → Except Unit (List Nat)) (script : List WEv)
    (bufW bufC : List Nat) :
    runFlush enc script .encErr bufW bufC = ⟨.stuck, .encErr, bufW, bufC, [], script⟩ := by
  cases script with
  | nil => rfl
  | cons e r => cases e <;> rfl

/-- unfolding: flush `WriteLen` on an exhausted script. -/
theorem rfNilWriteLen (enc : List Nat → Except Unit (List Nat)) (len : Nat)
    (buf : List Nat) (off : Nat) (bufW bufC : List Nat) :
    runFlush enc [] (.writeLen len buf off) bufW bufC
      = ⟨.stuck, .writeLen len buf off, bufW, bufC, [], []⟩ := rfl

/-- unfolding: flush `WriteLen` on a would-block event. -/
theorem rfWbWriteLen (enc : List Nat → Except Unit (List Nat)) (rest : List WEv)
    (len : Nat) (buf : List Nat) (off : Nat) (bufW bufC : List Nat) :
    runFlush enc (.wb :: rest) (.writeLen len buf off) bufW bufC
      = ⟨.errWb, .writeLen len buf off, bufW, bufC, [], rest⟩ := rfl

/-- unfolding: flush `WriteLen` on an accept event. -/
theorem rfAcceptWriteLen (enc : List Nat → Except Unit (List Nat)) (k : Nat)
    (rest : List WEv) (len : Nat) (buf : List Nat) (off : Nat) (bufW bufC : List Nat) :
    runFlush enc (.accept k :: rest) (.writeLen len buf off) bufW bufC
      = if min k (2 - off) = 0 then ⟨.errWriteZero, .eofW, bufW, bufC, [], rest⟩
        else if off + min k (2 - off) = 2 then
          FlOut.addW ((buf.drop off).take (min k (2 - off)))
            (runFlush enc rest (.writeData len 0) bufW bufC)
        else
          FlOut.addW ((buf.drop off).take (min k (2 - off)))
            (runFlush enc rest (.writeLen len buf (off + min k (2 - off))) bufW bufC)
      := rfl

/-- unfolding: flush `WriteData` on an exhausted script. -/
theorem rfNilWriteData (enc : List Nat → Except Unit (List Nat)) (len off : Nat)
    (bufW bufC : List Nat) :
    runFlush enc [] (.writeData len off) bufW bufC
      = if off ≤ len ∧ len ≤ bufC.length then
          ⟨.stuck, .writeData len off, bufW, bufC, [], []⟩
        else ⟨.oobF, .writeData len off, bufW, bufC, [], []⟩ := rfl

/-- unfolding: flush `WriteData` on a would-block event. -/
theorem rfWbWriteData (enc : List Nat → Except Unit (List Nat)) (rest : List WEv)
    (len off : Nat) (bufW bufC : List Nat) :
    runFlush enc (.wb :: rest) (.writeData len off) bufW bufC
      = if off ≤ len ∧ len ≤ bufC.length then
          ⟨.errWb, .writeData len off, bufW, bufC, [], rest⟩
        else ⟨.oobF, .writeData len off, bufW, bufC, [], .wb :: rest⟩ := rfl

/-- unfolding: flush `WriteData` on an accept event. -/
theorem rfAcceptWriteData (enc : List Nat → Except Unit (List Nat)) (k : Nat)
    (rest : List WEv) (len off : Nat) (bufW bufC : List Nat) :
    runFlush enc (.accept k :: rest) (.writeData len off) bufW bufC
      = if off ≤ len ∧ len ≤ bufC.length then
          (if min k (len - off) = 0 then ⟨.errWriteZero, .eofW, bufW, bufC, [], rest⟩
           else if off + min k (len - off) = len then
             ⟨.okU, .initW, bufW, bufC, (bufC.drop off).take (min k (len - off)), rest⟩
           else
             FlOut.addW ((bufC.drop off).take (min k (len - off)))
               (runFlush enc rest (.writeData len (off + min k (len - off))) bufW bufC))
        else ⟨.oobF, .writeData len off, bufW, bufC, [], .accept k :: rest⟩ := rfl

/-- a flush-call outcome that propagates `WouldBlock` always stores back an
active (`WriteLen`/`WriteData`) state. -/
theorem runFlush_wb_active (enc : List Nat → Except Unit (List Nat)) :
    ∀ (script : List WEv) (st : WState) (bufW bufC : List Nat),
      (runFlush enc script st bufW bufC).res = .errWb →
      wrActive (runFlush enc script st bufW bufC).st := by
  intro script
  induction script with
  | nil =>
    intro st bufW bufC h
    cases st with
    | initW => rw [rfDeadInitW] at h; simp at h
    | bufferData off => rw [rfDeadBufferData] at h; simp at h
    | eofW => rw [rfDeadEofW] at h; simp at h
    | encErr => rw [rfDeadEncErr] at h; simp at h
    | writeLen len buf off => rw [rfNilWriteLen] at h; simp at h
    | writeData len off => rw [rfNilWriteData] at h; split at h <;> simp at h
  | cons e rest ih =>
    intro st bufW bufC h
    cases st with
    | initW => rw [rfDeadInitW] at h; simp at h
    | bufferData off => rw [rfDeadBufferData] at h; simp at h
    | eofW => rw [rfDeadEofW] at h; simp at h
    | encErr => rw [rfDeadEncErr] at h; simp at h
    | writeLen len buf off =>
      cases e with
      | wb => rw [rfWbWriteLen] at h ⊢; simp [wrActive]
      | accept k =>
        rw [rfAcceptWriteLen] at h ⊢
        by_cases hn : min k (2 - off) = 0
        · rw [if_pos hn] at h; simp at h
        · rw [if_neg hn] at h ⊢
          by_cases ho : off + min k (2 - off) = 2
          · rw [if_pos ho] at h ⊢
            rw [addWF_res] at h
            rw [addWF_st]
            exact ih _ _ _ h
          · rw [if_neg ho] at h ⊢
            rw [addWF_res] at h
            rw [addWF_st]
            exact ih _ _ _ h
    | writeData len off =>
      by_cases hb : off ≤ len ∧ len ≤ bufC.length
      · cases e with
        | wb => rw [rfWbWriteData, if_pos hb] at h ⊢; simp [wrActive]
        | accept k =>
          rw [rfAcceptWriteData, if_pos hb] at h ⊢
          by_cases hn : min k (len - off) = 0
          · rw [if_pos hn] at h; simp at h
          · rw [if_neg hn] at h ⊢
            by_cases hc : off + min k (len - off) = len
            · rw [if_pos hc] at h; simp at h
            · rw [if_neg hc] at h ⊢
              rw [addWF_res] at h
              rw [addWF_st]
              exact ih _ _ _ h
      · cases e with
        | wb => rw [rfWbWriteData, if_neg hb] at h; simp at h
        | accept k => rw [rfAcceptWriteData, if_neg hb] at h; simp at h

/-- resumption for the flush loop. -/
theorem runFlush_wb_resume (enc : List Nat → Except Unit (List Nat)) :
    ∀ (pre : List WEv) (st : WState) (bufW bufC : List Nat)
      (suffix : List WEv) (st2 : WState) (bW2 bC2 w1 : List Nat),
      runFlush enc (pre ++ .wb :: suffix) st bufW bufC
        = ⟨.errWb, st2, bW2, bC2, w1, suffix⟩ →
      runFlush enc (pre ++ suffix) st bufW bufC
        = FlOut.addW w1 (runFlush enc suffix st2 bW2 bC2) := by
  intro pre
  induction pre with
  | nil =>
    intro st bufW bufC suffix st2 bW2 bC2 w1 h
    rw [List.nil_append] at h ⊢
    cases st with
    | initW => rw [rfDeadInitW, FlOut.mk.injEq] at h; simp at h
    | bufferData off => rw [rfDeadBufferData, FlOut.mk.injEq] at h; simp at h
    | eofW => rw [rfDeadEofW, FlOut.mk.injEq] at h; simp at h
    | encErr => rw [rfDeadEncErr, FlOut.mk.injEq] at h; simp at h
    | writeLen len buf off =>
      rw [rfWbWriteLen, FlOut.mk.injEq] at h
      obtain ⟨-, h2, h3, h4, h5, -⟩ := h
      subst h2; subst h3; subst h4; subst h5
      rw [addWF_nil]
    | writeData len off =>
      by_cases hb : off ≤ len ∧ len ≤ bufC.length
      · rw [rfWbWriteData, if_pos hb, FlOut.mk.injEq] at h
        obtain ⟨-, h2, h3, h4, h5, -⟩ := h
        subst h2; subst h3; subst h4; subst h5
        rw [addWF_nil]
      · rw [rfWbWriteData, if_neg hb, FlOut.mk.injEq] at h; simp at h
  | cons e pre ih =>
    intro st bufW bufC suffix st2 bW2 bC2 w1 h
    rw [List.cons_append] at h ⊢
    cases st with
    | initW => rw [rfDeadInitW, FlOut.mk.injEq] at h; simp at h
    | bufferData off => rw [rfDeadBufferData, FlOut.mk.injEq] at h; simp at h
    | eofW => rw [rfDeadEofW, FlOut.mk.injEq] at h; simp at h
    | encErr => rw [rfDeadEncErr, FlOut.mk.injEq] at h; simp at h
    | writeLen len buf off =>
      cases e with
      | wb =>
        rw [rfWbWriteLen, FlOut.mk.injEq] at h
        obtain ⟨-, -, -, -, -, hs⟩ := h
        have hl := congrArg List.length hs
        rw [List.length_append, List.length_cons] at hl
        omega
      | accept k =>
        rw [rfAcceptWriteLen] at h ⊢
        by_cases hn : min k (2 - off) = 0
        · rw [if_pos hn, FlOut.mk.injEq] at h; simp at h
        · rw [if_neg hn] at h ⊢
          by_cases ho : off + min k (2 - off) = 2
          · rw [if_pos ho] at h ⊢
            rcases hx : runFlush enc (pre ++ .wb :: suffix) (.writeData len 0) bufW bufC
              with ⟨r', s', bw', bc', ww', rr'⟩
            rw [hx] at h
            have h' : (⟨r', s', bw', bc',
                ((buf.drop off).take (min k (2 - off))) ++ ww', rr'⟩ : FlOut)
                = ⟨.errWb, st2, bW2, bC2, w1, suffix⟩ := h
            rw [FlOut.mk.injEq] at h'
            obtain ⟨h1, h2, h3, h4, h5, h6⟩ := h'
            subst h1; subst h2; subst h3; subst h4; subst h6
            have hih := ih _ _ _ _ _ _ _ _ hx
            rw [hih, addWF_addW, h5]
          · rw [if_neg ho] at h ⊢
            rcases hx : runFlush enc (pre ++ .wb :: suffix)
                (.writeLen len buf (off + min k (2 - off))) bufW bufC
              with ⟨r', s', bw', bc', ww', rr'⟩
            rw [hx] at h
            have h' : (⟨r', s', bw', bc',
                ((buf.drop off).take (min k (2 - off))) ++ ww', rr'⟩ : FlOut)
                = ⟨.errWb, st2, bW2, bC2, w1, suffix⟩ := h
            rw [FlOut.mk.injEq] at h'
            obtain ⟨h1, h2, h3, h4, h5, h6⟩ := h'
            subst h1; subst h2; subst h3; subst h4; subst h6
            have hih := ih _ _ _ _ _ _ _ _ hx
            rw [hih, addWF_addW, h5]
    | writeData len off =>
      by_cases hb : off ≤ len ∧ len ≤ bufC.length
      · cases e with
        | wb =>
          rw [rfWbWriteData, if_pos hb, FlOut.mk.injEq] at h
          obtain ⟨-, -, -, -, -, hs⟩ := h
          have hl := congrArg List.length hs
          rw [List.length_append, List.length_cons] at hl
          omega
        | accept k =>
          rw [rfAcceptWriteData, if_pos hb] at h ⊢
          by_cases hn : min k (len - off) = 0
          · rw [if_pos hn, FlOut.mk.injEq] at h; simp at h
          · rw [if_neg hn] at h ⊢
            by_cases hc : off + min k (len - off) = len
            · rw [if_pos hc, FlOut.mk.injEq] at h; simp at h
            · rw [if_neg hc] at h ⊢
              rcases hx : runFlush enc (pre ++ .wb :: suffix)
                  (.writeData len (off + min k (len - off))) bufW bufC
                with ⟨r', s', bw', bc', ww', rr'⟩
              rw [hx] at h
              have h' : (⟨r', s', bw', bc',
                  ((bufC.drop off).take (min k (len - off))) ++ ww', rr'⟩ : FlOut)
                  = ⟨.errWb, st2, bW2, bC2, w1, suffix⟩ := h
              rw [FlOut.mk.injEq] at h'
              obtain ⟨h1, h2, h3, h4, h5, h6⟩ := h'
              subst h1; subst h2; subst h3; subst h4; subst h6
              have hih := ih _ _ _ _ _ _ _ _ hx
              rw [hih, addWF_addW, h5]
      · cases e with
        | wb => rw [rfWbWriteData, if_neg hb, FlOut.mk.injEq] at h; simp at h
        | accept k => rw [rfAcceptWriteData, if_neg hb, FlOut.mk.injEq] at h; simp at h

/-- resumption holds at the level of `NoiseOutput::flush` calls. -/
theorem noiseFlush_wb_resume (enc : List Nat → Except Unit (List Nat))
    (st : WState) (bufW bufC : List Nat) (pre suffix : List WEv)
    (st2 : WState) (bW2 bC2 w1 : List Nat)
    (h : noiseFlush enc st bufW bufC (pre ++ .wb :: suffix)
           = ⟨.errWb, st2, bW2, bC2, w1, suffix⟩) :
    noiseFlush enc st bufW bufC (pre ++ suffix)
      = FlOut.addW w1 (noiseFlush enc st2 bW2 bC2 suffix) := by
  have dispatch : ∀ (s2 : WState) (b1 b2 : List Nat), wrActive s2 →
      noiseFlush enc s2 b1 b2 suffix = runFlush enc suffix s2 b1 b2 := by
    intro s2 b1 b2 hact
    cases s2 with
    | writeLen a b c => rfl
    | writeData a b => rfl
    | initW => exact hact.elim
    | bufferData o => exact hact.elim
    | eofW => exact hact.elim
    | encErr => exact hact.elim
  cases st with
  | initW =>
    have h' : (⟨.okU, .initW, bufW, bufC, [], pre ++ .wb :: suffix⟩ : FlOut)
        = ⟨.errWb, st2, bW2, bC2, w1, suffix⟩ := h
    rw [FlOut.mk.injEq] at h'
    simp at h'
  | eofW =>
    have h' : (⟨.errWriteZero, .eofW, bufW, bufC, [], pre ++ .wb :: suffix⟩ : FlOut)
        = ⟨.errWb, st2, bW2, bC2, w1, suffix⟩ := h
    rw [FlOut.mk.injEq] at h'
    simp at h'
  | encErr =>
    have h' : (⟨.errInvData, .encErr, bufW, bufC, [], pre ++ .wb :: suffix⟩ : FlOut)
        = ⟨.errWb, st2, bW2, bC2, w1, suffix⟩ := h
    rw [FlOut.mk.injEq] at h'
    simp at h'
  | bufferData off =>
    by_cases hoff : off ≤ bufW.length
    · rcases henc : enc (bufW.take off) with u | ct
      · have h' : (⟨.errInvData, .encErr, bufW, bufC, [], pre ++ .wb :: suffix⟩ : FlOut)
            = ⟨.errWb, st2, bW2, bC2, w1, suffix⟩ := by
          rw [show noiseFlush enc (.bufferData off) bufW bufC (pre ++ .wb :: suffix)
              = ⟨.errInvData, .encErr, bufW, bufC, [], pre ++ .wb :: suffix⟩ from by
            simp [noiseFlush, hoff, henc]] at h
          exact h
        rw [FlOut.mk.injEq] at h'
        simp at h'
      · have h' : runFlush enc (pre ++ .wb :: suffix)
            (.writeLen ct.length (be16bytes ct.length) 0) bufW ct
            = ⟨.errWb, st2, bW2, bC2, w1, suffix⟩ := by
          rw [show noiseFlush enc (.bufferData off) bufW bufC (pre ++ .wb :: suffix)
              = runFlush enc (pre ++ .wb :: suffix)
                  (.writeLen ct.length (be16bytes ct.length) 0) bufW ct from by
            simp [noiseFlush, hoff, henc]] at h
          exact h
        have hres : (runFlush enc (pre ++ .wb :: suffix)
            (.writeLen ct.length (be16bytes ct.length) 0) bufW ct).res = .errWb := by
          rw [h']
        have hact := runFlush_wb_active enc _ _ _ _ hres
        rw [h'] at hact
        have hact2 : wrActive st2 := hact
        have hgoal := runFlush_wb_resume enc pre _ _ _ _ _ _ _ _ h'
        rw [show noiseFlush enc (.bufferData off) bufW bufC (pre ++ suffix)
            = runFlush enc (pre ++ suffix)
                (.writeLen ct.length (be16bytes ct.length) 0) bufW ct from by
          simp [noiseFlush, hoff, henc], hgoal, dispatch st2 bW2 bC2 hact2]
    · have h' : (⟨.oobF, .bufferData off, bufW, bufC, [], pre ++ .wb :: suffix⟩ : FlOut)
          = ⟨.errWb, st2, bW2, bC2, w1, suffix⟩ := by
        rw [show noiseFlush enc (.bufferData off) bufW bufC (pre ++ .wb :: suffix)
            = ⟨.oobF, .bufferData off, bufW, bufC, [], pre ++ .wb :: suffix⟩ from by
          simp [noiseFlush, hoff]] at h
        exact h
      rw [FlOut.mk.injEq] at h'
      simp at h'
  | writeLen len buf off =>
    have h' : runFlush enc (pre ++ .wb :: suffix) (.writeLen len buf off) bufW bufC
        = ⟨.errWb, st2, bW2, bC2, w1, suffix⟩ := h
    have hres : (runFlush enc (pre ++ .wb :: suffix) (.writeLen len buf off)
        bufW bufC).res = .errWb := by rw [h']
    have hact := runFlush_wb_active enc _ _ _ _ hres
    rw [h'] at hact
    have hact2 : wrActive st2 := hact
    have hgoal := runFlush_wb_resume enc pre _ _ _ _ _ _ _ _ h'
    rw [show noiseFlush enc (.writeLen len buf off) bufW bufC (pre ++ suffix)
        = runFlush enc (pre ++ suffix) (.writeLen len buf off) bufW bufC from rfl,
      hgoal, dispatch st2 bW2 bC2 hact2]
  | writeData len off =>
    have h' : runFlush enc (pre ++ .wb :: suffix) (.writeData len off) bufW bufC
        = ⟨.errWb, st2, bW2, bC2, w1, suffix⟩ := h
    have hres : (runFlush enc (pre ++ .wb :: suffix) (.writeData len off)
        bufW bufC).res = .errWb := by rw [h']
    have hact := runFlush_wb_active enc _ _ _ _ hres
    rw [h'] at hact
    have hact2 : wrActive st2 := hact
    have hgoal := runFlush_wb_resume enc pre _ _ _ _ _ _ _ _ h'
    rw [show noiseFlush enc (.writeData len off) bufW bufC (pre ++ suffix)
        = runFlush enc (pre ++ suffix) (.writeData len off) bufW bufC from rfl,
      hgoal, dispatch st2 bW2 bC2 hact2]

/-- C7: for every read, write, or flush call during which the transport
returns `WouldBlock`, the machine propagates the error and stores back its
exact progress: retrying the call with the remaining transport events behaves
exactly as the original call would have behaved had the would-block event not
been in the stream.  In particular no byte is lost or duplicated across the
suspension; for writes and flushes the bytes emitted before the would-block
(`w1`) compose with the retry's bytes. -/
theorem would_block_preserves_state_exactly :
    (∀ (dec : List Nat → Except Unit (List Nat)) (st : RState)
       (bufR bufC : List Nat) (cb : Nat) (pre suffix : List REv)
       (st2 : RState) (bR2 bC2 : List Nat),
       noiseRead dec st bufR bufC cb (pre ++ .wb :: suffix)
         = ⟨.errWb, st2, bR2, bC2, [], suffix⟩ →
       noiseRead dec st2 bR2 bC2 cb suffix
         = noiseRead dec st bufR bufC cb (pre ++ suffix)) ∧
    (∀ (enc : List Nat → Except Unit (List Nat)) (st : WState)
       (bufW bufC caller : List Nat) (pre suffix : List WEv)
       (st2 : WState) (bW2 bC2 w1 : List Nat),
       noiseWrite enc st bufW bufC caller (pre ++ .wb :: suffix)
         = ⟨.errWb, st2, bW2, bC2, w1, suffix⟩ →
       noiseWrite enc st bufW bufC caller (pre ++ suffix)
         = WrOut.addW w1 (noiseWrite enc st2 bW2 bC2 caller suffix)) ∧
    (∀ (enc : List Nat → Except Unit (List Nat)) (st : WState)
       (bufW bufC : List Nat) (pre suffix : List WEv)
       (st2 : WState) (bW2 bC2 w1 : List Nat),
       noiseFlush enc st bufW bufC (pre ++ .wb :: suffix)
         = ⟨.errWb, st2, bW2, bC2, w1, suffix⟩ →
       noiseFlush enc st bufW bufC (pre ++ suffix)
         = FlOut.addW w1 (noiseFlush enc st2 bW2 bC2 suffix)) :=
  ⟨fun dec st bufR bufC cb pre suffix st2 bR2 bC2 h =>
     noiseRead_wb_resume dec st bufR bufC cb pre suffix st2 bR2 bC2 h,
   fun enc st bufW bufC caller pre suffix st2 bW2 bC2 w1 h =>
     noiseWrite_wb_resume enc st bufW bufC caller pre suffix st2 bW2 bC2 w1 h,
   fun enc st bufW bufC pre suffix st2 bW2 bC2 w1 h =>
     noiseFlush_wb_resume enc st bufW bufC pre suffix st2 bW2 bC2 w1 h⟩

/-- witness for `would_block_preserves_state_exactly`: a read that got one
byte of the two-byte length prefix before a would-block resumes exactly; a
write and a flush that emitted one of the two length bytes before a
would-block resume exactly. -/
theorem would_block_preserves_state_exactly_witness :
    (noiseRead pureSess (.readLen [0, 0] 0) [] [] 0 [.bytes [3], .wb]
       = ⟨.errWb, .readLen [3, 0] 1, [], [], [], []⟩ ∧
     noiseRead pureSess (.readLen [3, 0] 1) [] [] 0 []
       = noiseRead pureSess (.readLen [0, 0] 0) [] [] 0 [.bytes [3]]) ∧
    (noiseWrite pureSess (.writeLen 2 [0, 2] 0) [] [9, 9] [] [.accept 1, .wb]
       = ⟨.errWb, .writeLen 2 [0, 2] 1, [], [9, 9], [0], []⟩ ∧
     noiseWrite pureSess (.writeLen 2 [0, 2] 0) [] [9, 9] [] [.accept 1]
       = WrOut.addW [0] (noiseWrite pureSess (.writeLen 2 [0, 2] 1) [] [9, 9] [] [])) ∧
    (noiseFlush pureSess (.writeData 2 0) [] [7, 8] [.accept 1, .wb]
       = ⟨.errWb, .writeData 2 1, [], [7, 8], [7], []⟩ ∧
     noiseFlush pureSess (.writeData 2 0) [] [7, 8] [.accept 1]
       = FlOut.addW [7] (noiseFlush pureSess (.writeData 2 1) [] [7, 8] [])) := by
  refine ⟨⟨rfl, ?_⟩, ⟨rfl, ?_⟩, ⟨rfl, ?_⟩⟩
  · exact would_block_preserves_state_exactly.1 pureSess (.readLen [0, 0] 0) [] [] 0
      [.bytes [3]] [] (.readLen [3, 0] 1) [] [] rfl
  · exact would_block_preserves_state_exactly.2.1 pureSess (.writeLen 2 [0, 2] 0)
      [] [9, 9] [] [.accept 1] [] (.writeLen 2 [0, 2] 1) [] [9, 9] [0] rfl
  · exact would_block_preserves_state_exactly.2.2 pureSess (.writeData 2 0)
      [] [7, 8] [.accept 1] [] (.writeData 2 1) [] [7, 8] [7] rfl

/-! ## Handshake driver (`rt1.rs`, `NoiseInboundFuture` / `NoiseOutboundFuture`)

The four codec operations a driver step performs (`Handshake::send`, `flush`,
`receive`, `finish`) are abstracted: each invocation of `send`/`flush`/
`receive` consumes the next entry of a result script (`Poll<(), Error>` =
ready, not-ready, or error), and the success of `finish`
(`remote_static_public_key` present) is the boolean `fin`.  A poll records
the sequence of operations it issues. -/

/-- one codec operation issued by the handshake driver. -/
inductive HsStep
  | send
  | flush
  | receive
  | finish
deriving DecidableEq, Repr

/-- result of one `send`/`flush`/`receive` step (`Poll<(), io::Error>`). -/
inductive StepRes
  | ready
  | notReady
  | errS
deriving DecidableEq, Repr

/-- result of one `poll` call: `Ok(Async::Ready(..))`, `Ok(Async::NotReady)`,
`Err(..)`, a panic with its message, or an exhausted step script. -/
inductive PollRes
  | ready
  | notReady
  | err
  | panicked (msg : String)
  | stuck
deriving DecidableEq, Repr

/-- `OutboundState` from `rt1.rs`. -/
inductive OState
  | sendH
  | flushS
  | recvH
  | errSt
  | doneSt
deriving DecidableEq, Repr

/-- `InboundState` from `rt1.rs`. -/
inductive IState
  | recvH
  | sendH
  | flushS
  | errSt
  | doneSt
deriving DecidableEq, Repr

/-- outcome of polling the outbound future: result, final state, the codec
operations issued in order, and the unconsumed step results. -/
structure OOut where
  res : PollRes
  st : OState
  acts : List HsStep
  rest : List StepRes
deriving DecidableEq, Repr

/-- outcome of polling the inbound future. -/
structure IOut where
  res : PollRes
  st : IState
  acts : List HsStep
  rest : List StepRes
deriving DecidableEq, Repr

/-- prepends an issued operation to an outbound poll outcome. -/
def OOut.addA (a : HsStep) (o : OOut) : OOut :=
  { o with acts := a :: o.acts }

/-- prepends an issued operation to an inbound poll outcome. -/
def IOut.addA (a : HsStep) (o : IOut) : IOut :=
  { o with acts := a :: o.acts }

/-- `NoiseOutboundFuture::poll` (`rt1.rs` lines 133–166).  Every loop
iteration `mem::replace`s the state with `Done`, so a step error (`?`) and
the `Err` arm both leave the state `Done`; `NotReady` restores the current
step's state; a completed step falls through to the next arm in the same
poll; after a ready `receive`, `finish` runs and the state is `Done`. -/
def pollOut (fin : Bool) : List StepRes → OState → OOut
  | script, .errSt => ⟨.err, .doneSt, [], script⟩
  | script, .doneSt =>
      ⟨.panicked "NoiseOutboundFuture::poll called after completion", .doneSt, [], script⟩
  | [], st => ⟨.stuck, st, [], []⟩
  | .ready :: rest, .sendH => OOut.addA .send (pollOut fin rest .flushS)
  | .notReady :: rest, .sendH => ⟨.notReady, .sendH, [.send], rest⟩
  | .errS :: rest, .sendH => ⟨.err, .doneSt, [.send], rest⟩
  | .ready :: rest, .flushS => OOut.addA .flush (pollOut fin rest .recvH)
  | .notReady :: rest, .flushS => ⟨.notReady, .flushS, [.flush], rest⟩
  | .errS :: rest, .flushS => ⟨.err, .doneSt, [.flush], rest⟩
  | .ready :: rest, .recvH =>
      if fin then ⟨.ready, .doneSt, [.receive, .finish], rest⟩
      else ⟨.err, .doneSt, [.receive, .finish], rest⟩
  | .notReady :: rest, .recvH => ⟨.notReady, .recvH, [.receive], rest⟩
  | .errS :: rest, .recvH => ⟨.err, .doneSt, [.receive], rest⟩

/-- `NoiseInboundFuture::poll` (`rt1.rs` lines 64–97): receive, send, flush,
then finish, with the same completion discipline as the outbound future. -/
def pollIn (fin : Bool) : List StepRes → IState → IOut
  | script, .errSt => ⟨.err, .doneSt, [], script⟩
  | script, .doneSt =>
      ⟨.panicked "NoiseInboundFuture::poll called after completion", .doneSt, [], script⟩
  | [], st => ⟨.stuck, st, [], []⟩
  | .ready :: rest, .recvH => IOut.addA .receive (pollIn fin rest .sendH)
  | .notReady :: rest, .recvH => ⟨.notReady, .recvH, [.receive], rest⟩
  | .errS :: rest, .recvH => ⟨.err, .doneSt, [.receive], rest⟩
  | .ready :: rest, .sendH => IOut.addA .send (pollIn fin rest .flushS)
  | .notReady :: rest, .sendH => ⟨.notReady, .sendH, [.send], rest⟩
  | .errS :: rest, .sendH => ⟨.err, .doneSt, [.send], rest⟩
  | .ready :: rest, .flushS =>
      if fin then ⟨.ready, .doneSt, [.flush, .finish], rest⟩
      else ⟨.err, .doneSt, [.flush, .finish], rest⟩
  | .notReady :: rest, .flushS => ⟨.notReady, .flushS, [.flush], rest⟩
  | .errS :: rest, .flushS => ⟨.err, .doneSt, [.flush], rest⟩

/-- a poll that returns `NotReady` has consumed at least one step result. -/
theorem pollOut_notReady_consumed (fin : Bool) :
    ∀ (script : List StepRes) (st : OState),
      (pollOut fin script st).res = .notReady →
      (pollOut fin script st).rest.length < script.length := by
  intro script
  induction script with
  | nil => intro st h; cases st <;> simp [pollOut] at h
  | cons r rest ih =>
    intro st h
    cases st <;> cases r <;>
      simp only [pollOut, OOut.addA] at h ⊢ <;>
      first
        | (exact Nat.lt_succ_of_lt (ih _ h))
        | (cases fin <;> simp_all)

/-- projection: `addA` does not change the poll result (outbound). -/
theorem addAO_res (a : HsStep) (o : OOut) : (OOut.addA a o).res = o.res := rfl

/-- projection: `addA` does not change the stored state (outbound). -/
theorem addAO_st (a : HsStep) (o : OOut) : (OOut.addA a o).st = o.st := rfl

/-- projection: `addA` does not change the poll result (inbound). -/
theorem addAI_res (a : HsStep) (o : IOut) : (IOut.addA a o).res = o.res := rfl

/-- projection: `addA` does not change the stored state (inbound). -/
theorem addAI_st (a : HsStep) (o : IOut) : (IOut.addA a o).st = o.st := rfl

/-- an inbound poll that returns `NotReady` has consumed at least one step
result. -/
theorem pollIn_notReady_consumed (fin : Bool) :
    ∀ (script : List StepRes) (st : IState),
      (pollIn fin script st).res = .notReady →
      (pollIn fin script st).rest.length < script.length := by
  intro script
  induction script with
  | nil => intro st h; cases st <;> simp [pollIn] at h
  | cons r rest ih =>
    intro st h
    cases st <;> cases r <;>
      simp only [pollIn, IOut.addA] at h ⊢ <;>
      first
        | (exact Nat.lt_succ_of_lt (ih _ h))
        | (cases fin <;> simp_all)

/-- repeatedly polling `NoiseOutboundFuture` until a poll returns something
other than `NotReady`: the claim's "retried on the next poll" discipline.
The issued operations of all polls are concatenated. -/
def driveOut (fin : Bool) (st : OState) (script : List StepRes) : OOut :=
  let p := pollOut fin script st
  if hp : p.res = .notReady then
    let o := driveOut fin p.st p.rest
    ⟨o.res, o.st, p.acts ++ o.acts, o.rest⟩
  else p
termination_by script.length
decreasing_by exact pollOut_notReady_consumed fin script st hp

/-- repeatedly polling `NoiseInboundFuture` until a poll returns something
other than `NotReady`. -/
def driveIn (fin : Bool) (st : IState) (script : List StepRes) : IOut :=
  let p := pollIn fin script st
  if hp : p.res = .notReady then
    let o := driveIn fin p.st p.rest
    ⟨o.res, o.st, p.acts ++ o.acts, o.rest⟩
  else p
termination_by script.length
decreasing_by exact pollIn_notReady_consumed fin script st hp

/-- outbound stage 3 (`RecvHandshake`): `c` pending receives, then a ready
receive followed by a successful finish. -/
theorem driveOut_recv_stage (c : Nat) :
    ∀ T : List StepRes,
      driveOut true .recvH (List.replicate c .notReady ++ .ready :: T)
        = ⟨.ready, .doneSt, List.replicate (c + 1) .receive ++ [.finish], T⟩ := by
  induction c with
  | zero =>
    intro T
    rw [driveOut]
    simp [pollOut]
  | succ m ih =>
    intro T
    rw [driveOut]
    simp only [List.replicate_succ, List.cons_append, pollOut]
    simp [ih T, List.replicate_succ]

/-- outbound stage 2 (`Flush`): pending flushes retry, a ready flush moves to
`RecvHandshake` within the same poll. -/
theorem driveOut_flush_stage (b : Nat) :
    ∀ (c : Nat) (T : List StepRes),
      driveOut true .flushS (List.replicate b .notReady ++ .ready ::
          (List.replicate c .notReady ++ .ready :: T))
        = ⟨.ready, .doneSt, List.replicate (b + 1) .flush ++
            (List.replicate (c + 1) .receive ++ [.finish]), T⟩ := by
  induction b with
  | zero =>
    intro c T
    cases c with
    | zero =>
      rw [driveOut]
      simp [pollOut, OOut.addA]
    | succ m =>
      rw [driveOut]
      simp only [List.nil_append, List.replicate_succ, List.cons_append, pollOut, OOut.addA]
      simp [driveOut_recv_stage m T, List.replicate_succ]
  | succ m ih =>
    intro c T
    rw [driveOut]
    simp only [List.replicate_succ, List.cons_append, pollOut]
    simp [ih c T, List.replicate_succ]

/-- outbound stage 1 (`SendHandshake`): the full outbound schedule. -/
theorem driveOut_send_stage (a : Nat) :
    ∀ (b c : Nat) (T : List StepRes),
      driveOut true .sendH (List.replicate a .notReady ++ .ready ::
          (List.replicate b .notReady ++ .ready ::
            (List.replicate c .notReady ++ .ready :: T)))
        = ⟨.ready, .doneSt, List.replicate (a + 1) .send ++
            (List.replicate (b + 1) .flush ++
              (List.replicate (c + 1) .receive ++ [.finish])), T⟩ := by
  induction a with
  | zero =>
    intro b c T
    cases b with
    | zero =>
      cases c with
      | zero =>
        rw [driveOut]
        simp [pollOut, OOut.addA]
      | succ m =>
        rw [driveOut]
        simp only [List.nil_append, List.replicate_succ, List.cons_append, pollOut, OOut.addA]
        simp [driveOut_recv_stage m T, List.replicate_succ]
    | succ m =>
      rw [driveOut]
      simp only [List.nil_append, List.replicate_succ, List.cons_append, pollOut, OOut.addA]
      simp [driveOut_flush_stage m c T, List.replicate_succ]
  | succ m ih =>
    intro b c T
    rw [driveOut]
    simp only [List.replicate_succ, List.cons_append, pollOut]
    simp [ih b c T, List.replicate_succ]

/-- inbound stage 3 (`Flush`): pending flushes retry, a ready flush is
followed by a successful finish. -/
theorem driveIn_flush_stage (c : Nat) :
    ∀ T : List StepRes,
      driveIn true .flushS (List.replicate c .notReady ++ .ready :: T)
        = ⟨.ready, .doneSt, List.replicate (c + 1) .flush ++ [.finish], T⟩ := by
  induction c with
  | zero =>
    intro T
    rw [driveIn]
    simp [pollIn]
  | succ m ih =>
    intro T
    rw [driveIn]
    simp only [List.replicate_succ, List.cons_append, pollIn]
    simp [ih T, List.replicate_succ]

/-- inbound stage 2 (`SendHandshake`). -/
theorem driveIn_send_stage (b : Nat) :
    ∀ (c : Nat) (T : List StepRes),
      driveIn true .sendH (List.replicate b .notReady ++ .ready ::
          (List.replicate c .notReady ++ .ready :: T))
        = ⟨.ready, .doneSt, List.replicate (b + 1) .send ++
            (List.replicate (c + 1) .flush ++ [.finish]), T⟩ := by
  induction b with
  | zero =>
    intro c T
    cases c with
    | zero =>
      rw [driveIn]
      simp [pollIn, IOut.addA]
    | succ m =>
      rw [driveIn]
      simp only [List.nil_append, List.replicate_succ, List.cons_append, pollIn, IOut.addA]
      simp [driveIn_flush_stage m T, List.replicate_succ]
  | succ m ih =>
    intro c T
    rw [driveIn]
    simp only [List.replicate_succ, List.cons_append, pollIn]
    simp [ih c T, List.replicate_succ]

/-- inbound stage 1 (`RecvHandshake`): the full inbound schedule. -/
theorem driveIn_recv_stage (a : Nat) :
    ∀ (b c : Nat) (T : List StepRes),
      driveIn true .recvH (List.replicate a .notReady ++ .ready ::
          (List.replicate b .notReady ++ .ready ::
            (List.replicate c .notReady ++ .ready :: T)))
        = ⟨.ready, .doneSt, List.replicate (a + 1) .receive ++
            (List.replicate (b + 1) .send ++
              (List.replicate (c + 1) .flush ++ [.finish])), T⟩ := by
  induction a with
  | zero =>
    intro b c T
    cases b with
    | zero =>
      cases c with
      | zero =>
        rw [driveIn]
        simp [pollIn, IOut.addA]
      | succ m =>
        rw [driveIn]
        simp only [List.nil_append, List.replicate_succ, List.cons_append, pollIn, IOut.addA]
        simp [driveIn_flush_stage m T, List.replicate_succ]
    | succ m =>
      rw [driveIn]
      simp only [List.nil_append, List.replicate_succ, List.cons_append, pollIn, IOut.addA]
      simp [driveIn_send_stage m c T, List.replicate_succ]
  | succ m ih =>
    intro b c T
    rw [driveIn]
    simp only [List.replicate_succ, List.cons_append, pollIn]
    simp [ih b c T, List.replicate_succ]

/-- C8: with the codec steps resolving after `a`, `b`, `c` pending rounds
respectively (each `Pending` retried from the same step on the next poll) and
the remote static key available at `finish`, the 1-RTT outbound driver issues
exactly `a+1` sends, then `b+1` flushes, then `c+1` receives, then one
finish, and yields `Ready`; the inbound driver issues exactly `a+1` receives,
then `b+1` sends, then `c+1` flushes, then one finish.  A completed step is
never re-issued and the whole step-result script is consumed in order. -/
theorem rt1_handshake_step_sequence (a b c : Nat) :
    driveOut true .sendH (List.replicate a .notReady ++ .ready ::
        (List.replicate b .notReady ++ .ready ::
          (List.replicate c .notReady ++ [.ready])))
      = ⟨.ready, .doneSt, List.replicate (a + 1) .send ++
          (List.replicate (b + 1) .flush ++
            (List.replicate (c + 1) .receive ++ [.finish])), []⟩ ∧
    driveIn true .recvH (List.replicate a .notReady ++ .ready ::
        (List.replicate b .notReady ++ .ready ::
          (List.replicate c .notReady ++ [.ready])))
      = ⟨.ready, .doneSt, List.replicate (a + 1) .receive ++
          (List.replicate (b + 1) .send ++
            (List.replicate (c + 1) .flush ++ [.finish])), []⟩ :=
  ⟨driveOut_send_stage a b c [], driveIn_recv_stage a b c []⟩

/-- C10: once either 1-RTT future has completed — a poll returned `Ready`, or
an error was raised inside a step (`mem::replace` leaves the internal state
`Done` before each arm runs, and the `Err` arm also returns with the state
left `Done`) — every further poll panics with a "poll called after
completion" message instead of returning `Pending`, a value, or an error. -/
theorem poll_after_completion_panics :
    (∀ (fin : Bool) (script : List StepRes),
       pollOut fin script .doneSt
         = ⟨.panicked "NoiseOutboundFuture::poll called after completion",
            .doneSt, [], script⟩) ∧
    (∀ (fin : Bool) (script : List StepRes) (st : OState),
       (pollOut fin script st).res = .ready ∨ (pollOut fin script st).res = .err →
       (pollOut fin script st).st = .doneSt) ∧
    (∀ (fin : Bool) (script : List StepRes),
       pollIn fin script .doneSt
         = ⟨.panicked "NoiseInboundFuture::poll called after completion",
            .doneSt, [], script⟩) ∧
    (∀ (fin : Bool) (script : List StepRes) (st : IState),
       (pollIn fin script st).res = .ready ∨ (pollIn fin script st).res = .err →
       (pollIn fin script st).st = .doneSt) := by
  refine ⟨?_, ?_, ?_, ?_⟩
  · intro fin script
    cases script with
    | nil => rfl
    | cons r rest => cases r <;> rfl
  · intro fin script
    induction script with
    | nil => intro st h; cases st <;> simp [pollOut] at h ⊢
    | cons r rest ih =>
      intro st h
      cases st <;> cases r <;>
        simp only [pollOut, addAO_res, addAO_st] at h ⊢ <;>
        first
          | (exact ih _ h)
          | (cases fin <;> simp_all)
  · intro fin script
    cases script with
    | nil => rfl
    | cons r rest => cases r <;> rfl
  · intro fin script
    induction script with
    | nil => intro st h; cases st <;> simp [pollIn] at h ⊢
    | cons r rest ih =>
      intro st h
      cases st <;> cases r <;>
        simp only [pollIn, addAI_res, addAI_st] at h ⊢ <;>
        first
          | (exact ih _ h)
          | (cases fin <;> simp_all)

/-- witness for `poll_after_completion_panics`: polling either completed
future panics; a step error and a completed handshake both leave the state
`Done`. -/
theorem poll_after_completion_panics_witness :
    pollOut true [] .doneSt
      = ⟨.panicked "NoiseOutboundFuture::poll called after completion",
         .doneSt, [], []⟩ ∧
    (pollOut true [.errS] .sendH).st = .doneSt ∧
    pollIn false [.ready] .doneSt
      = ⟨.panicked "NoiseInboundFuture::poll called after completion",
         .doneSt, [], [.ready]⟩ ∧
    (pollIn true [.ready, .ready, .ready] .recvH).st = .doneSt :=
  ⟨poll_after_completion_panics.1 true [],
   poll_after_completion_panics.2.1 true [.errS] .sendH (Or.inr rfl),
   poll_after_completion_panics.2.2.1 false [.ready],
   poll_after_completion_panics.2.2.2 true [.ready, .ready, .ready] .recvH (Or.inl rfl)⟩
